import Mathlib

/-!
Verification of the dancelist event aggregator.

This file gives a shallow embedding, in Lean 4, of the parts of the
dancelist repository that the specification talks about:

* `src/controllers/index.rs` — sorting and grouping events by month;
* `src/github.rs` — safe filename derivation and the branch-creation
  retry loop;
* `src/importers/balfolknl/mod.rs` — the balfolk.nl iCalendar importer;
* `src/importers/plugevents/mod.rs` — the plug.events JSON importer;
* `src/importers/cdss/mod.rs` — the CDSS iCalendar importer.

Rust strings are modelled as `String` / `List Char`; the handful of
standard-library string operations the code uses (`replace`, `contains`,
`split`, `trim_start_matches`, ...) are re-implemented below as total
structurally recursive functions with the same semantics on the inputs
the program uses (all patterns in the program are non-empty literals).
Rust `to_lowercase` is modelled by ASCII lowercasing (`Char.toLower`);
the program only ever relies on the ASCII fragment, and characters
outside ASCII are never kept by the filters under verification.

`chrono::NaiveDate` is modelled as a record of numerals together with a
calendar-validity predicate mirroring the range chrono can represent.
Network and filesystem effects are out of scope: importers are modelled
from the point where the fetched feed has been parsed into records, and
the GitHub `create_ref` API call is modelled as a function from branch
name to outcome.
-/

/-! ## String primitives (models of the Rust standard library functions used) -/

/-- Model of `str::starts_with` on character lists. -/
def isPrefixOfL : List Char → List Char → Bool
  | [], _ => true
  | _ :: _, [] => false
  | a :: as, b :: bs => a = b && isPrefixOfL as bs

/-- Model of `str::contains` (substring containment) on character lists. -/
def containsL (pat : List Char) : List Char → Bool
  | [] => isPrefixOfL pat []
  | c :: rest => isPrefixOfL pat (c :: rest) || containsL pat rest

/-- Worker for `replaceL`, structurally recursive on a fuel bounded by
the length of the string (each step consumes at least one character, so
`s.length` fuel always suffices; the fuel-exhausted branch is
unreachable). -/
def replaceLGo : Nat → List Char → List Char → List Char → List Char
  | 0, s, _, _ => s
  | _ + 1, [], _, _ => []
  | fuel + 1, c :: rest, pat, rep =>
    if pat ≠ [] ∧ isPrefixOfL pat (c :: rest) = true then
      rep ++ replaceLGo fuel (List.drop pat.length (c :: rest)) pat rep
    else
      c :: replaceLGo fuel rest pat rep

/-- Model of `str::replace` (leftmost, non-overlapping, replace all).
The program only calls it with non-empty patterns; for an empty pattern
this model returns the string unchanged. -/
def replaceL (pat rep s : List Char) : List Char :=
  replaceLGo s.length s pat rep

/-- Worker for `splitOnL`, structurally recursive on a fuel bounded by
the length of the string (see `replaceLGo`). -/
def splitOnLGo : Nat → List Char → List Char → List (List Char)
  | 0, s, _ => [s]
  | _ + 1, [], _ => [[]]
  | fuel + 1, c :: rest, sep =>
    if sep ≠ [] ∧ isPrefixOfL sep (c :: rest) = true then
      [] :: splitOnLGo fuel (List.drop sep.length (c :: rest)) sep
    else
      match splitOnLGo fuel rest sep with
      | [] => [[c]]
      | piece :: more => (c :: piece) :: more

/-- Model of `str::split` with a non-empty separator (the program always
splits on non-empty literals); returns the pieces between the
non-overlapping leftmost occurrences of the separator. -/
def splitOnL (sep s : List Char) : List (List Char) :=
  splitOnLGo s.length s sep

/-- Worker for `trimStartMatchesL`, structurally recursive on a fuel
bounded by the length of the string (see `replaceLGo`). -/
def trimStartMatchesLGo : Nat → List Char → List Char → List Char
  | 0, s, _ => s
  | fuel + 1, s, pat =>
    if pat ≠ [] ∧ isPrefixOfL pat s = true then
      trimStartMatchesLGo fuel (List.drop pat.length s) pat
    else s

/-- Model of `str::trim_start_matches` (repeatedly strips the pattern
from the front while it is a prefix); patterns used are non-empty. -/
def trimStartMatchesL (pat s : List Char) : List Char :=
  trimStartMatchesLGo s.length s pat

/-- Model of `str::trim_end_matches`, by reversal. -/
def trimEndMatchesL (pat s : List Char) : List Char :=
  (trimStartMatchesL pat.reverse s.reverse).reverse

/-- Model of `str::trim` (whitespace from both ends). -/
def trimL (s : List Char) : List Char :=
  ((s.dropWhile Char.isWhitespace).reverse.dropWhile Char.isWhitespace).reverse

/-- String wrapper for `containsL`: Rust `s.contains(pat)`. -/
def scontains (s pat : String) : Bool := containsL pat.data s.data

/-- String wrapper: Rust `s.starts_with(pat)`. -/
def sstarts (s pat : String) : Bool := isPrefixOfL pat.data s.data

/-- String wrapper: Rust `s.replace(pat, rep)`. -/
def sreplace (s pat rep : String) : String := String.mk (replaceL pat.data rep.data s.data)

/-- String wrapper: Rust `s.split(sep).collect()`. -/
def ssplit (s sep : String) : List String := (splitOnL sep.data s.data).map String.mk

/-- String wrapper: Rust `s.to_lowercase()` (ASCII fragment, see header). -/
def slower (s : String) : String := String.mk (s.data.map Char.toLower)

/-- Model of Rust `char::is_ascii_alphanumeric`. -/
def isAsciiAlnum (c : Char) : Bool :=
  ('0' ≤ c && c ≤ '9') || ('A' ≤ c && c ≤ 'Z') || ('a' ≤ c && c ≤ 'z')

/-! ## Dates: model of `chrono::NaiveDate` -/

/-- Model of `chrono::NaiveDate`: a plain year/month/day record.  The
subset of values chrono can actually represent is carved out by
`NaiveDate.Valid` below. -/
structure NaiveDate where
  year : Int
  month : Nat
  day : Nat
deriving DecidableEq, Repr

/-- Model of `chrono::naive::MIN_DATE` (`NaiveDate::MIN`), January 1 of
the minimum representable year. -/
def minDate : NaiveDate := ⟨-262144, 1, 1⟩

/-- Leap year rule used by chrono (proleptic Gregorian). -/
def isLeapYear (y : Int) : Bool :=
  y % 4 == 0 && (y % 100 != 0 || y % 400 == 0)

/-- Number of days of month `m` of year `y` (proleptic Gregorian). -/
def daysInMonth (y : Int) (m : Nat) : Nat :=
  if m = 2 then (if isLeapYear y then 29 else 28)
  else if m = 4 ∨ m = 6 ∨ m = 9 ∨ m = 11 then 30
  else 31

/-- Calendar validity: the dates representable as `chrono::NaiveDate`. -/
def NaiveDate.Valid (d : NaiveDate) : Prop :=
  1 ≤ d.month ∧ d.month ≤ 12 ∧ 1 ≤ d.day ∧ d.day ≤ daysInMonth d.year d.month ∧
    minDate.year ≤ d.year

instance (d : NaiveDate) : Decidable d.Valid := by
  unfold NaiveDate.Valid
  exact inferInstance

/-- Model of `chrono::NaiveDate::pred_opt`: the previous calendar day,
or `none` at the minimum representable date. -/
def NaiveDate.predOpt (d : NaiveDate) : Option NaiveDate :=
  if d = minDate then none
  else if 2 ≤ d.day then some ⟨d.year, d.month, d.day - 1⟩
  else if 2 ≤ d.month then some ⟨d.year, d.month - 1, daysInMonth d.year (d.month - 1)⟩
  else some ⟨d.year - 1, 12, 31⟩

/-- The next calendar day (defined independently of `predOpt`; used to
state that `predOpt` really subtracts one day). -/
def NaiveDate.nextDay (d : NaiveDate) : NaiveDate :=
  if d.day < daysInMonth d.year d.month then ⟨d.year, d.month, d.day + 1⟩
  else if d.month < 12 then ⟨d.year, d.month + 1, 1⟩
  else ⟨d.year + 1, 1, 1⟩

/-- Chronological order on dates (lexicographic year, month, day);
agrees with the `Ord` instance of `chrono::NaiveDate` on valid dates. -/
def NaiveDate.le (a b : NaiveDate) : Prop :=
  a.year < b.year ∨ (a.year = b.year ∧
    (a.month < b.month ∨ (a.month = b.month ∧ a.day ≤ b.day)))

/-- Strict chronological order on dates. -/
def NaiveDate.lt (a b : NaiveDate) : Prop :=
  a.year < b.year ∨ (a.year = b.year ∧
    (a.month < b.month ∨ (a.month = b.month ∧ a.day < b.day)))

instance (a b : NaiveDate) : Decidable (a.le b) := by
  unfold NaiveDate.le
  exact inferInstance

instance (a b : NaiveDate) : Decidable (a.lt b) := by
  unfold NaiveDate.lt
  exact inferInstance

theorem NaiveDate.le_total (a b : NaiveDate) : a.le b ∨ b.le a := by
  unfold NaiveDate.le
  omega

theorem NaiveDate.le_trans {a b c : NaiveDate} (hab : a.le b) (hbc : b.le c) : a.le c := by
  unfold NaiveDate.le at *
  omega

theorem NaiveDate.lt_of_le_of_ne_month {a b : NaiveDate} (hab : a.le b)
    (h : ¬(b.year = a.year ∧ b.month = a.month)) (ha : a.day = 1) :
    a.lt ⟨b.year, b.month, 1⟩ := by
  unfold NaiveDate.le at hab
  unfold NaiveDate.lt
  simp only at *
  omega

/-! ## Canonical event model (`src/model/event.rs`, via its uses in the sources) -/

/-- The dance styles the embedded importers mention
(`src/model/dancestyle.rs` is not part of the analysed sources; the
constructors are the ones the importers use). -/
inductive DanceStyle
  | balfolk
  | contra
  | englishCountryDance
deriving DecidableEq, Repr

/-- Model of a `chrono::DateTime<FixedOffset>`: an absolute instant in
seconds together with the fixed local-time offset in seconds.
Comparison between such values (the `chrono` `Ord`) is by instant. -/
structure FixedDateTime where
  instant : Int
  offset : Int
deriving DecidableEq, Repr

/-- Model of `EventTime` from `src/model/event.rs` (as used by the
event importers): either a whole-day range with inclusive end date, or a
timestamped range with fixed offsets. -/
inductive EventTime
  | dateOnly (start_date : NaiveDate) (end_date : NaiveDate)
  | dateTime (start : FixedDateTime) (eend : FixedDateTime)
deriving DecidableEq, Repr

/-- Model of the canonical `Event` record (`src/model/event.rs`), with
the fields the embedded code reads or writes. -/
structure Event where
  name : String
  details : Option String
  links : List String
  time : EventTime
  country : String
  state : Option String
  city : String
  styles : List DanceStyle
  workshop : Bool
  social : Bool
  bands : List String
  callers : List String
  price : Option String
  organisation : Option String
  cancelled : Bool
deriving DecidableEq, Repr

/-- Model of `Events` (`src/model/events.rs`): the batch a source
importing run returns. -/
structure Events where
  events : List Event
deriving DecidableEq, Repr

/-! ## `src/controllers/index.rs`: sorting and grouping by month

`sort_and_group_by_month` receives model events and reads only their
`start_date`; `src/model/event.rs` itself is not among the analysed
sources.  `IndexEvent` therefore keeps the start date and abstracts all
remaining fields of the event into an opaque `tag`, which the grouping
carries around untouched (the Rust code clones whole events). -/

structure IndexEvent where
  start_date : NaiveDate
  tag : Nat
deriving DecidableEq, Repr

/-- Model of the `Month` struct of `src/controllers/index.rs`: the first
day of the month together with the events of that month. -/
structure Month where
  start : NaiveDate
  events : List IndexEvent
deriving DecidableEq, Repr

/-- The loop of `sort_and_group_by_month` (lines 62 to 86 of
`src/controllers/index.rs`): walk the sorted events, extending the
current month while year and month agree, flushing non-empty months. -/
def groupLoop : List IndexEvent → Month → List Month → List Month
  | [], month, months => if month.events ≠ [] then months ++ [month] else months
  | e :: rest, month, months =>
    if e.start_date.year = month.start.year ∧ e.start_date.month = month.start.month then
      groupLoop rest ⟨month.start, month.events ++ [e]⟩ months
    else
      groupLoop rest ⟨⟨e.start_date.year, e.start_date.month, 1⟩, [e]⟩
        (if month.events ≠ [] then months ++ [month] else months)

/-- The sort relation of `events.sort_by_key(|event| event.start_date)`. -/
def byStartDate (a b : IndexEvent) : Prop := a.start_date.le b.start_date

instance : DecidableRel byStartDate := fun a b => by
  unfold byStartDate
  exact inferInstance

/-- Model of `sort_and_group_by_month` (`src/controllers/index.rs`,
lines 59 to 87).  Rust `sort_by_key` is a stable sort; it is modelled by
`List.insertionSort`, which is stable for the reflexive key order (any
two stable sorts by the same key agree). -/
def sort_and_group_by_month (events : List IndexEvent) : List Month :=
  let sorted := List.insertionSort byStartDate events
  groupLoop sorted ⟨minDate, []⟩ []

/-! ## `src/github.rs`: safe filenames and the branch-creation retry loop -/

/-- Model of `to_safe_filename` (`src/github.rs` lines 187 to 192):
lowercase, replace spaces by underscores, retain ASCII alphanumerics,
underscores and hyphens, truncate to 30.  After the retain step every
character is one byte, so the byte-truncation of Rust is `List.take`. -/
def to_safe_filename (s : String) : String :=
  let filename := (s.data.map Char.toLower).map (fun c => if c = ' ' then '_' else c)
  let filename := filename.filter (fun c => isAsciiAlnum c || c = '_' || c = '-')
  String.mk (filename.take 30)

/-- Model of `octocrab::Error` as far as `create_branch` inspects it: an
optional HTTP status code plus an opaque payload. -/
structure ApiError where
  status : Option Nat
  msg : String
deriving DecidableEq, Repr

/-- Model of the `eyre::Report` accumulated by `create_branch`: either
the initial message or a converted API error. -/
inductive GhFailure
  | message (s : String)
  | api (e : ApiError)
deriving DecidableEq, Repr

/-- Result of the modelled `create_branch`: the created branch name, or
`InternalError::Internal` carrying the last failure cause. -/
inductive BranchResult
  | ok (branchName : String)
  | internalError (cause : GhFailure)
deriving DecidableEq, Repr

/-- `MAX_SUFFIX` (`src/github.rs` line 17). -/
def MAX_SUFFIX : Nat := 9

/-- The branch name tried at a given suffix (`src/github.rs` lines
62 to 66): the base name for suffix 0, base ++ suffix otherwise. -/
def branchNameAt (base : String) (suffix : Nat) : String :=
  if suffix = 0 then base else base ++ toString suffix

/-- HTTP 422, `StatusCode::UNPROCESSABLE_ENTITY`: the status
`create_branch` treats as a name collision. -/
def isCollisionError (e : ApiError) : Bool := e.status = some 422

/-- The `for suffix in 0..=MAX_SUFFIX` loop of `create_branch`
(`src/github.rs` lines 60 to 91).  The GitHub `create_ref` call is
modelled as a function from the branch name to its outcome (`none` is
success).  `lastError` is the accumulator for the last collision
cause. -/
def create_branch_loop (createRef : String → Option ApiError) (base : String)
    (lastError : GhFailure) (suffix : Nat) : BranchResult :=
  if suffix ≤ MAX_SUFFIX then
    match createRef (branchNameAt base suffix) with
    | none => .ok (branchNameAt base suffix)
    | some e =>
      if isCollisionError e then
        create_branch_loop createRef base (.api e) (suffix + 1)
      else
        .internalError (.api e)
  else
    .internalError lastError
termination_by MAX_SUFFIX + 1 - suffix

/-- Model of `create_branch` (`src/github.rs` lines 47 to 91), from the
point where the branch base name has been derived. -/
def create_branch (createRef : String → Option ApiError) (base : String) : BranchResult :=
  create_branch_loop createRef base (.message "Failed to create branch for event PR.") 0

/-- Whether a modelled `create_ref` outcome is a name collision (an
error with HTTP status 422). -/
def isCollisionResult : Option ApiError → Bool
  | none => false
  | some e => isCollisionError e

/-! ## Shared importer infrastructure -/

/-- Rust failure modes of a converter: an `eyre::Report` error value, or
a panic (index out of range, unwrap of `None`).  A panic is not a
`Result` in Rust; it is kept as a separate constructor so that theorems
can distinguish the two. -/
inductive RErr
  | report (msg : String)
  | crash
deriving DecidableEq, Repr

/-- Model of `Option<Result<T, E>>::transpose` applied to a converter
result, as in `convert(event).transpose()`. -/
def transposeR {α : Type} : Except RErr (Option α) → Option (Except RErr α)
  | .ok none => none
  | .ok (some a) => some (.ok a)
  | .error e => some (.error e)

/-- Model of `collect::<Result<Vec<_>, _>>()`: the list of values if all
succeed, otherwise the first error in iteration order. -/
def collectR {α : Type} : List (Except RErr α) → Except RErr (List α)
  | [] => .ok []
  | x :: xs =>
    match x with
    | .error e => .error e
    | .ok a => (collectR xs).map (a :: ·)

/-- Model of a local (zone-less) date-time from the iCalendar feed. -/
structure LocalDateTime where
  date : NaiveDate
  hour : Nat
  minute : Nat
  second : Nat
deriving DecidableEq, Repr

/-- Model of `icalendar::CalendarDateTime`. -/
inductive CalendarDateTimeM
  | floating (dt : LocalDateTime)
  | utc (instant : Int)
  | withTimezone (date_time : LocalDateTime) (tzid : String)
deriving DecidableEq, Repr

/-- Model of `icalendar::DatePerhapsTime`. -/
inductive DatePerhapsTimeM
  | date (d : NaiveDate)
  | dateTime (dt : CalendarDateTimeM)
deriving DecidableEq, Repr

/-- Model of an `icalendar::Event` as far as the importers read it: the
accessors `get_url`, `get_summary`, `get_description`, `get_location`,
`get_start`, `get_end` become optional fields. -/
structure IcalEvent where
  url : Option String
  summary : Option String
  description : Option String
  location : Option String
  start : Option DatePerhapsTimeM
  eend : Option DatePerhapsTimeM
deriving DecidableEq, Repr

/-- Model of `icalendar::CalendarComponent`: an event, or any other
component kind (venue, todo, ...), which the importers skip. -/
inductive CalendarComponentM
  | eventC (e : IcalEvent)
  | otherC
deriving DecidableEq, Repr

/-- `to_fixed_offset` lives in `src/importers/mod.rs`, which is not
among the analysed sources.  Modelled from the spec: it converts a
zone-aware date-time to a fixed-offset date-time preserving the
instant; in this model zone-aware date-times are already instants with
an offset, so it is the identity. -/
def to_fixed_offset (dt : FixedDateTime) : FixedDateTime := dt

/-! ## `src/importers/balfolknl/mod.rs` -/

/-- The `BANDS` roster (`src/importers/balfolknl/mod.rs` lines 29 to 61). -/
def BANDS : List String :=
  ["Achterband", "Androneda", "Artisjok", "Aurélien Claranbaux", "Beat Bouet Trio",
   "Berkenwerk", "BmB", "Celts without Borders", "Duo Absynthe", "Duo Mackie/Hendrix",
   "Duo Roblin-Thebaut", "Emelie Waldken", "Fahrenheit", "Geronimo", "Hartwin Dhoore",
   "La Sauterelle", "Laouen", "Les Bottines Artistiques", "Les Zéoles", "Madlot",
   "Mieneke", "Momiro", "Naragonia", "Nebel", "Nubia", "Paracetamol", "QuiVive",
   "Swinco", "Wilma", "Wouter en de Draak", "Wouter Kuyper"]

/-- Model of `unescape` (`src/importers/balfolknl/mod.rs` lines 206 to 214). -/
def unescape (s : String) : String :=
  sreplace (sreplace (sreplace (sreplace (sreplace (sreplace (sreplace
    s "\\," ",") "\\;" ";") "\\n" "\n") "&amp;" "&") "&gt;" ">") "&lt;" "<") "&nbsp;" " "

/-- Model of `summary.rsplitn(2, ',').last().unwrap()`: everything
before the last comma, or the whole string when there is no comma. -/
def rsplitnLast (s : String) : String :=
  let parts := ssplit s ","
  if parts.length ≤ 1 then s else String.intercalate "," parts.dropLast

/-- Model of `get_time` (`src/importers/balfolknl/mod.rs` lines 216 to
264).  The chrono-tz resolution `Amsterdam.from_local_datetime(..)
.single()` is modelled by the parameter `amsterdamLocal` (`none` for an
ambiguous or non-existent local time); `.unwrap()` of `pred_opt` is a
potential panic, kept as `.crash`. -/
def get_time (amsterdamLocal : LocalDateTime → Option FixedDateTime) (event : IcalEvent) :
    Except RErr EventTime :=
  match event.start with
  | none => .error (.report "Event missing start time.")
  | some start =>
  match event.eend with
  | none => .error (.report "Event missing end time.")
  | some eend =>
  match start, eend with
  | .date start_date, .date end_date =>
    -- iCalendar DTEND is non-inclusive, so subtract one day.
    (match end_date.predOpt with
     | some e => .ok (.dateOnly start_date e)
     | none => .error .crash)
  | .dateTime (.withTimezone s start_tzid), .dateTime (.withTimezone e end_tzid) =>
    if start_tzid ≠ "Europe/Amsterdam" then .error (.report "Unexpected start timezone.")
    else if end_tzid ≠ "Europe/Amsterdam" then .error (.report "Unexpected end timezone.")
    else
      match amsterdamLocal s with
      | none => .error (.report "Ambiguous datetime for event.")
      | some sfix =>
        match amsterdamLocal e with
        | none => .error (.report "Ambiguous datetime for event.")
        | some efix => .ok (.dateTime (to_fixed_offset sfix) (to_fixed_offset efix))
  | _, _ => .error (.report "Mismatched start and end times.")

/-- Model of `convert` (`src/importers/balfolknl/mod.rs` lines 85 to
204).  The source struct literal has no `state` field (the model
revision it was written against had none); the modelled record sets
`state := none`. -/
def convertBal (amsterdamLocal : LocalDateTime → Option FixedDateTime) (event : IcalEvent) :
    Except RErr (Option Event) :=
  match event.url with
  | none => .error (.report "Event missing url.")
  | some url =>
  match event.summary with
  | none => .error (.report "Event missing summary.")
  | some summary0 =>
    let summary := sreplace summary0 "\\," ","
    -- Remove city from end of summary and use em dash where appropriate.
    let raw_name := rsplitnLast summary
    let name := sreplace raw_name " - " " — "
    -- Try to skip music workshops.
    if sstarts name "Muziekstage" then .ok none
    else
    match event.description with
    | none => .error (.report "Event missing description.")
    | some description0 =>
      let description := unescape description0
      -- Remove name from start of description.
      let details0 := String.mk (trimL (trimStartMatchesL (raw_name ++ ", ").data description.data))
      let details := if details0 = "" then none else some details0
      match get_time amsterdamLocal event with
      | .error e => .error e
      | .ok time =>
      match event.location with
      | none => .error (.report "Event missing location.")
      | some location =>
        let location_parts := ssplit location "\\, "
        let city :=
          if location_parts.length = 8 then location_parts.getD 3 ""
          else if 4 ≤ location_parts.length then location_parts.getD 2 ""
          else ""
        let workshop :=
          scontains name "Fundamentals" || scontains name "Basis van" ||
          scontains name "beginnerslessen" || scontains name "danslessen" ||
          scontains name "workshop" || sstarts name "Socialles " ||
          sstarts name "Proefles " || name = "DenneFeest" ||
          name = "Folkbal Wilhelmina" || scontains description "Dansworkshop" ||
          scontains description "Workshopbeschrijving" || scontains description "Workshop " ||
          scontains description "dans uitleg" || scontains description "dansuitleg" ||
          scontains description " leren " || scontains description "Vooraf dansuitleg" ||
          scontains description "de Docent"
        let social :=
          scontains name "Social dance" || scontains name "Balfolkbal" ||
          scontains name "Avondbal" || scontains name "Bal in" ||
          scontains name "Balfolk Bal" || scontains name "Vuurbal" ||
          sstarts name "Balfolk Wilhelmina" || sstarts name "Fest Noz" ||
          sstarts name "Folkwoods" || sstarts name "Folkbal" ||
          sstarts name "Socialles " || sstarts name "Verjaardagsbal" ||
          sstarts name "Balfolk Utrecht Bal" || sstarts name "Verjaardagsbal" ||
          name = "Balfolk café Nijmegen" || name = "DenneFeest" ||
          name = "Folkbal Wilhelmina" || scontains description "Bal deel"
        let bands :=
          if social then
            BANDS.filterMap (fun band =>
              if scontains description band then some band else none)
          else []
        .ok (some
          { name := name
            details := details
            links := [url]
            time := time
            country := "Netherlands"
            state := none
            city := city
            styles := [DanceStyle.balfolk]
            workshop := workshop
            social := social
            bands := bands
            callers := []
            price := none
            organisation := some "balfolk.nl"
            cancelled := false })

/-- Model of `import_events` (`src/importers/balfolknl/mod.rs` lines 63
to 83), from the point where the fetched feed has been parsed into a
calendar: non-event components are skipped, converter results are
transposed and collected into a `Result`, so the first converter error
aborts the whole batch. -/
def import_events_balfolknl (amsterdamLocal : LocalDateTime → Option FixedDateTime)
    (calendar : List CalendarComponentM) : Except RErr Events :=
  match collectR (calendar.filterMap (fun component =>
    match component with
    | .eventC e => transposeR (convertBal amsterdamLocal e)
    | .otherC => none)) with
  | .ok evs => .ok ⟨evs⟩
  | .error e => .error e

/-! ## `src/importers/plugevents/mod.rs`

`src/importers/plugevents/types.rs` is not among the analysed sources;
the record and enum below are modelled from their uses in
`src/importers/plugevents/mod.rs` and from the spec (a JSON event-list
API with name, description, a hierarchical venueLocale string,
enumerated subinterest tags, ISO start and end timestamps plus an
explicit timezone, a free/paid flag with optional display price, and a
publisher display name).  A `DateTime<Tz>` is modelled as an absolute
instant, and the timezone as the UTC offset (seconds) it assigns at the
times of the event. -/

inductive EventFormat
  | bal | balfolk | balfolkNL | folkbal | folkBal
  | advanced | classFmt | course | danceClass | dansles | eventFmt | les
  | learning | lessonSeries | intensive
  | festival | meeting | organiser
  | dansavond | liveMusic | liveMuziek | party | social | socialDancing
  | practica | socialClass | sociales
  | musicClass | musiekles | teacher
deriving DecidableEq, Repr

structure PlugEvent where
  name : String
  description : String
  venue_locale : Option String
  subinterests : Option (List EventFormat)
  start_date_time_iso : Int
  end_date_time_iso : Int
  timezone : Int
  plug_url : String
  is_free : Bool
  price_display : Option String
  published_by_name : Option String
deriving DecidableEq, Repr

/-- Model of `with_timezone(&event.timezone).fixed_offset()`: attach the
offset of the zone; the instant is unchanged. -/
def withEventTimezone (instant offsetSeconds : Int) : FixedDateTime :=
  ⟨instant, offsetSeconds⟩

/-- Model of `.with_second(0).unwrap().with_nanosecond(0).unwrap()`: set
the seconds-of-minute of the local time to zero (for the argument 0
these never fail, so the unwraps cannot panic); at the seconds
granularity of this model `with_nanosecond(0)` is the identity. -/
def withSecondZero (dt : FixedDateTime) : FixedDateTime :=
  ⟨dt.instant - (dt.instant + dt.offset) % 60, dt.offset⟩

/-- Model of `fix_organisation` (`src/importers/plugevents/mod.rs`
lines 154 to 159). -/
def fix_organisation (published_by_name : String) : String :=
  if published_by_name = "Chata Numinosum" then "Numinosum" else published_by_name

/-- Model of `format_price` (`src/importers/plugevents/mod.rs` lines
161 to 174).  `price.chars().next().unwrap()` panics when the price
display text consists solely of spaces; that panic is kept as
`.crash`. -/
def format_price (event : PlugEvent) : Except RErr (Option String) :=
  if event.is_free then .ok (some "free")
  else
    match event.price_display with
    | none => .ok none
    | some price0 =>
      let price := sreplace price0 " " ""
      match price.data with
      | [] => .error .crash
      | currency :: _ =>
        if "$£€".data.contains currency then
          .ok (some (sreplace price "-" (String.mk ['-', currency])))
        else .ok (some price)

/-- Model of `convert` (`src/importers/plugevents/mod.rs` lines 50 to
152).  A missing `venueLocale` is logged and skipped (`Ok(None)`); the
`country` error branch mirrors the source even though `split` never
yields an empty list. -/
def convertPlug (event : PlugEvent) (style : DanceStyle) : Except RErr (Option Event) :=
  match event.venue_locale with
  | none => .ok none
  | some venue_locale =>
    let locale_parts := ssplit venue_locale ", "
    match locale_parts.getLast? with
    | none => .error (.report "venueLocale only has one part.")
    | some country =>
      let city := if 3 < locale_parts.length then locale_parts.getD 1 ""
                  else locale_parts.getD 0 ""
      let ws : Bool × Bool :=
        (event.subinterests.getD []).foldl (fun ws si =>
          match si with
          | .bal | .balfolk | .balfolkNL | .folkbal | .folkBal => (ws.fst, true)
          | .advanced | .classFmt | .course | .danceClass | .dansles | .eventFmt
          | .les | .learning | .lessonSeries | .intensive => (true, ws.snd)
          | .festival => (true, true)
          | .meeting => (ws.fst, true)
          | .organiser => ws
          | .dansavond | .liveMusic | .liveMuziek | .party | .social
          | .socialDancing => (ws.fst, true)
          | .practica => (ws.fst, true)
          | .socialClass | .sociales => (true, true)
          | .musicClass | .musiekles | .teacher => ws) (false, false)
      let workshop :=
        if scontains event.name "warsztatów" || scontains event.description "warsztaty" then
          true
        else ws.fst
      let social := ws.snd
      match format_price event with
      | .error e => .error e
      | .ok price =>
        .ok (some
          { name := event.name
            details := some event.description
            links := [event.plug_url]
            time := .dateTime
              (withSecondZero (withEventTimezone event.start_date_time_iso event.timezone))
              (withEventTimezone event.end_date_time_iso event.timezone)
            country := country
            state := none
            city := city
            styles := [style]
            workshop := workshop
            social := social
            bands := []
            callers := []
            price := price
            organisation := event.published_by_name.map fix_organisation
            cancelled := false })

/-- Model of `import_events` (`src/importers/plugevents/mod.rs` lines 38
to 48), from the point where the JSON has been fetched and parsed: each
record is converted with style `Balfolk`, `None` results are dropped,
and the results are collected into a `Result`, so the first converter
error aborts the whole batch. -/
def import_events_plugevents (records : List PlugEvent) : Except RErr Events :=
  match collectR (records.filterMap (fun event =>
    transposeR (convertPlug event DanceStyle.balfolk))) with
  | .ok evs => .ok ⟨evs⟩
  | .error e => .error e

/-! ## `src/importers/cdss/mod.rs` -/

/-- `EventParts` is defined in `src/importers/icalendar/mod.rs`, which
is not among the analysed sources.  Modelled from the spec: the shared
intermediate extracted by the framework before adapter hooks run —
primary URL, summary text, unescaped description, raw location string
split into comma-separated parts, organiser display name if present,
and resolved time. -/
structure EventParts where
  url : String
  summary : String
  description : String
  time : EventTime
  location_parts : Option (List String)
  organiser : Option String
deriving DecidableEq, Repr

/-- Model of an `icalendar::Event` as the CDSS converter reads it
together with its extracted `EventParts`: the converter touches the raw
event only through its `CATEGORIES` multi-property (`none` when the key
is absent, the listed property values otherwise). -/
structure CdssEvent where
  categories : Option (List String)
  parts : EventParts
deriving DecidableEq, Repr

/-- `lowercase_matches` is defined in `src/importers/icalendar/mod.rs`,
which is not among the analysed sources.  Modelled from the spec: a
fixed roster of known names is compared against the lower-cased summary
and description via substring containment; every matching name is
included, in roster order. -/
def lowercase_matches (roster : List String) (description_lower summary_lower : String) :
    List String :=
  roster.filter (fun n =>
    scontains description_lower (slower n) || scontains summary_lower (slower n))

/-- Model of `get_styles` (`src/importers/cdss/mod.rs` lines 143 to
156). -/
def get_styles (categories : List String) (summary : String) : List DanceStyle :=
  let summary_lowercase := slower summary
  ((if categories.contains "Contra Dance" then [DanceStyle.contra] else []) ++
   (if categories.contains "English Country Dance" then [DanceStyle.englishCountryDance]
    else [])) ++
  (if scontains summary_lowercase "bal folk" || scontains summary_lowercase "balfolk" then
    [DanceStyle.balfolk]
   else [])

/-- Worker for `priceCaptures`, structurally recursive on a fuel
bounded by the length of the string (see `replaceLGo`). -/
def priceCapturesGo : Nat → List Char → List (List Char)
  | 0, _ => []
  | _ + 1, [] => []
  | fuel + 1, c :: rest =>
    if c = '$' then
      (let digits := rest.takeWhile Char.isDigit
       if digits.isEmpty then priceCapturesGo fuel rest
       else digits :: priceCapturesGo fuel (rest.drop digits.length))
    else priceCapturesGo fuel rest

/-- The captures of the price regex `\$([0-9]+)`, left to right and
non-overlapping: the maximal digit runs directly preceded by a dollar
sign. -/
def priceCaptures (s : List Char) : List (List Char) :=
  priceCapturesGo s.length s

/-- Model of `str::parse::<u32>` on a digit run: the numeral, or the
overflow error that `wrap_err` turns into *Invalid price*. -/
def parseU32 (digits : List Char) : Except RErr Nat :=
  let n := digits.foldl (fun acc c => acc * 10 + (c.toNat - '0'.toNat)) 0
  if n ≤ 4294967295 then .ok n else .error (.report "Invalid price")

/-- Model of `get_price` (`src/importers/cdss/mod.rs` lines 159 to
180): fold min and max over the parsed captures starting from
`u32::MAX` and `u32::MIN`, then format. -/
def get_price (description : String) : Except RErr (Option String) :=
  match collectR ((priceCaptures description.data).map parseU32) with
  | .error e => .error e
  | .ok prices =>
    let min_price := prices.foldl min 4294967295
    let max_price := prices.foldl max 0
    .ok (if min_price = 4294967295 then none
         else if min_price = max_price then some ("$" ++ toString min_price)
         else some ("$" ++ toString min_price ++ "-$" ++ toString max_price))

/-- String wrapper: Rust `s.trim_start_matches(pat)`. -/
def strimStart (s pat : String) : String := String.mk (trimStartMatchesL pat.data s.data)

/-- String wrapper: Rust `s.trim_end_matches(pat)`. -/
def strimEnd (s pat : String) : String := String.mk (trimEndMatchesL pat.data s.data)

/-- Model of `apply_fixes` (`src/importers/cdss/mod.rs` lines 183 to
314): per-series link injection, name rewrites, one price correction,
and a final city/state fix. -/
def apply_fixes (event : Event) : Event :=
  let event :=
    if event.name = "Anaheim Contra Dance" then
      { event with links := "https://www.thelivingtradition.org/tltbodydance.html" :: event.links }
    else if event.name = "Capital English Country Dancers" then
      { event with links :=
          "https://www.danceflurry.org/series/capital-english-country-dancers/" :: event.links }
    else if event.name = "CDK Contra Dance" then
      { event with links := "https://www.countrydancinginkalamazoo.com/" :: event.links }
    else if event.name = "Contra Dance" ∧ event.city = "Carrollton" ∧
        event.state = some "TX" then
      { event with links := "https://www.nttds.org/" :: event.links }
    else if event.name = "Denver Contra Dance" then
      { event with links := "https://www.cfootmad.org/" :: event.links }
    else if event.name = "Fourth Friday Experienced Contra at Guiding Star Grange" then
      { event with
          name := "Experienced Contra at Guiding Star Grange"
          links := "https://www.guidingstargrange.org/events.html" :: event.links }
    else if event.name = "Friday Night Contra & Square Dance" then
      { event with links := "https://fsgw.org/Friday-contra-square-dance" :: event.links }
    else if event.name = "Goshen Community Contra Dance" then
      let event := { event with links := "http://godancing.org/" :: event.links }
      if event.price = some "$3-$18" then { event with price := some "$3-$8" } else event
    else if event.name = "Hayward Contra Dance" then
      { event with links := "https://sfbaycontra.org/" :: event.links }
    else if event.name = "Indy Contra Dance" then
      { event with links := "https://www.indycontra.org/" :: event.links }
    else if event.name = "Lancaster Contra Dance" then
      { event with links := "https://lancastercontra.org/" :: event.links }
    else if event.name = "Montpelier Contra Dance" then
      { event with links :=
          "https://capitalcitygrange.org/dancing/contradancing/" :: event.links }
    else if event.name = "North Alabama Country Dance Society - Contra Dance" then
      { event with name := "North Alabama Country Dance Society" }
    else if event.name = "Orlando Contra Dance" then
      { event with links := "https://orlandocontra.org/dances-and-events/" :: event.links }
    else if event.name = "Ottawa Contra Dance" then
      { event with links := "https://ottawacontra.ca/" :: event.links }
    else if event.name = "Pittsburgh Contra Dance" then
      { event with links := "https://pittsburghcontra.org/" :: event.links }
    else if event.name = "Quiet Corner Contra Dance" then
      { event with links := "http://www.hcdance.org/quiet-corner-contra/" :: event.links }
    else if event.name = "Richmond Wednesday English Country Dance" then
      { event with links :=
          "https://colonialdanceclubofrichmond.com/english-dance-calendar" :: event.links }
    else if event.name = "Second/Fourth Wednesday English Country Dance at Guiding Star Grange" then
      { event with
          name := "English Country Dance at Guiding Star Grange"
          links := "https://www.guidingstargrange.org/events.html" :: event.links }
    else if event.name = "TECDA Friday Evening Dance" ∨
        event.name = "TECDA Tuesday Evening English Country Dance" then
      { event with links := "https://www.tecda.ca/weekly_dances.html" :: event.links }
    else if event.name = "Third Sunday English Regency Dancing" then
      { event with links :=
          "https://www.valleyareaenglishregencysociety.org/" :: event.links }
    else if event.name = "Thursday Contra Dance" ∧ event.city = "Philadelphia" then
      { event with links := "https://thursdaycontra.com/" :: event.links }
    else if event.name = "Williamsburg Tuesday Night English Dance" then
      { event with links := "https://williamsburgheritagedancers.org/" :: event.links }
    else event
  if event.city = "401 Chapman St" ∧ event.state = some "Greenfield" then
    { event with city := "Greenfield", state := some "MA" }
  else event

/-- Model of `convert` (`src/importers/cdss/mod.rs` lines 30 to 141).
The `BANDS` and `CALLERS` rosters live in `src/importers/mod.rs`, which
is not among the analysed sources; they are passed as plain data (the
spec keeps rosters as immutable data inputs).  When the country is USA
or Canada and the location has exactly three parts, the source indexes
`location_parts[len - 4]`, which panics (`.crash`). -/
def convertCdss (bands callers : List String) (event : CdssEvent) :
    Except RErr (Option Event) :=
  match event.categories with
  | none => .error (.report "Event missing categories.")
  | some categoryProps =>
  match categoryProps with
  | [] => .error (.report "Event has empty categories.")
  | categoriesValue :: _ =>
    let categories := ssplit categoriesValue ","
    let n01 := strimStart event.parts.summary "Portland Country Dance Community "
    let n02 := strimStart n01 "Contra Dance with "
    let n03 := strimEnd n02 " - Asheville NC"
    let n04 := strimEnd n03 " (Masks Optional)"
    let n05 := strimEnd n04 " of Macon County, NC"
    let n06 := strimEnd n05 " in Dallas"
    let n07 := strimEnd n06 " in Peterborough, NH"
    let n08 := strimEnd n07 " in Philadelphia"
    let n09 := strimEnd n08 " in Carrollton, TX"
    let n10 := strimEnd n09 " in Nelson, NH"
    let n11 := strimEnd n10 " in Van Nuys"
    let n12 := sreplace n11 "Berkeley, CA" "Berkeley"
    let n13 := sreplace n12 "Dover NH" "Dover"
    let n14 := sreplace n13 "Richmond VA" "Richmond"
    let n15 := sreplace n14 "Richmond, VA" "Richmond"
    let n16 := sreplace n15 "Rochester, NY" "Rochester"
    let n17 := sreplace n16 "Hayward CA" "Hayward"
    let n18 := sreplace n17 "Hayward, CA" "Hayward"
    let n19 := sreplace n18 "Lancaster, PA" "Lancaster"
    let name := sreplace n19 "Williamsburg (VA)" "Williamsburg"
    let summary_lowercase := slower event.parts.summary
    let styles := get_styles categories event.parts.summary
    if categories.contains "Online Event" || scontains summary_lowercase "online" then
      .ok none
    else if styles.isEmpty then
      .ok none
    else
    match event.parts.location_parts with
    | none => .error (.report "Event missing location.")
    | some location_parts =>
      if location_parts.length < 3 then
        -- error! log, then skip the event
        .ok none
      else
        let country0 := location_parts.getD (location_parts.length - 1) ""
        let country :=
          if country0 = "United States" then "USA"
          else if country0 = "United Kingdom" then "UK"
          else country0
        let stateCity : Except RErr (Option String × String) :=
          if country = "Canada" ∨ country = "USA" then
            if 4 ≤ location_parts.length then
              .ok (some (location_parts.getD (location_parts.length - 3) ""),
                   location_parts.getD (location_parts.length - 4) "")
            else
              -- usize underflow / index out of range: Rust panics here
              .error .crash
          else
            .ok (none, location_parts.getD (location_parts.length - 3) "")
        match stateCity with
        | .error e => .error e
        | .ok (state, city) =>
          let organisation := some (event.parts.organiser.getD "CDSS")
          match get_price event.parts.description with
          | .error e => .error e
          | .ok price =>
            let description_lower := slower event.parts.description
            let summary_lower := slower event.parts.summary
            let bandsM := lowercase_matches bands description_lower summary_lower
            let callersM := lowercase_matches callers description_lower summary_lower
            let workshop :=
              (scontains description_lower "lesson" &&
                !(scontains description_lower "no lesson")) ||
              scontains description_lower "skills session" ||
              scontains description_lower "workshops" ||
              scontains description_lower "beginner workshop" ||
              scontains description_lower "beginners workshop" ||
              scontains description_lower "introductory session" ||
              scontains description_lower "introductory workshop" ||
              scontains description_lower "intro session"
            let details := if event.parts.description = "" then none
                           else some event.parts.description
            .ok (some (apply_fixes
              { name := name
                details := details
                links := [event.parts.url]
                time := event.parts.time
                country := country
                state := state
                city := city
                styles := styles
                workshop := workshop
                social := true
                bands := bandsM
                callers := callersM
                price := price
                organisation := organisation
                cancelled := false }))

/-- Model of the CDSS `import_events` (`src/importers/cdss/mod.rs`
lines 26 to 28).  The shared driver it delegates to lives in
`src/importers/icalendar/mod.rs`, which is not among the analysed
sources; modelled from the spec, from the point where the feed has been
parsed: every native record is converted, events the converter vetoes
(`None`) are dropped from the batch, and the surviving events are
collected. -/
def import_events_cdss (bands callers : List String) (records : List CdssEvent) :
    Except RErr Events :=
  match collectR (records.filterMap (fun r => transposeR (convertCdss bands callers r))) with
  | .ok evs => .ok ⟨evs⟩
  | .error e => .error e

/-! ## Helper lemmas -/

theorem char_toNat_ofNat (n : Nat) (h1 : n < 55296) : (Char.ofNat n).toNat = n := by
  unfold Char.ofNat
  rw [dif_pos]
  · rfl
  · exact Or.inl (by exact_mod_cast h1)

theorem toLower_eq (c : Char) :
    Char.toLower c = if c.toNat ≥ 65 ∧ c.toNat ≤ 90 then Char.ofNat (c.toNat + 32) else c := rfl

theorem toLower_not_upper (c : Char) :
    ¬(65 ≤ (Char.toLower c).toNat ∧ (Char.toLower c).toNat ≤ 90) := by
  rw [toLower_eq]
  split
  · rename_i h
    rw [char_toNat_ofNat _ (by omega)]
    omega
  · rename_i h
    omega

theorem char_le_iff_toNat {a b : Char} : a ≤ b ↔ a.toNat ≤ b.toNat := Iff.rfl

/-! ## Theorems for the claims -/

/-- C9: for every input string, `to_safe_filename` returns a string
that contains only ASCII alphanumeric characters, underscores and
hyphens, contains no uppercase letters, is at most 30 characters long,
and every space of the input has been turned into an underscore before
the non-allowed characters were removed — equivalently, pre-replacing
the spaces of the input by underscores does not change the result. -/
theorem c9_to_safe_filename_safe (s : String) :
    (∀ c ∈ (to_safe_filename s).data, (isAsciiAlnum c || c = '_' || c = '-') = true) ∧
    (∀ c ∈ (to_safe_filename s).data, ¬('A' ≤ c ∧ c ≤ 'Z')) ∧
    (to_safe_filename s).data.length ≤ 30 ∧
    to_safe_filename (String.mk (s.data.map (fun c => if c = ' ' then '_' else c)))
      = to_safe_filename s := by
  refine ⟨?_, ?_, ?_, ?_⟩
  · intro c hc
    have hc2 := List.mem_of_mem_take hc
    exact (List.mem_filter.mp hc2).2
  · intro c hc
    have hc2 := List.mem_of_mem_take hc
    have hc3 := (List.mem_filter.mp hc2).1
    rcases List.mem_map.mp hc3 with ⟨d, hd, hdc⟩
    rcases List.mem_map.mp hd with ⟨a, _, had⟩
    rintro ⟨hA, hZ⟩
    rw [char_le_iff_toNat] at hA hZ
    have hup : 65 ≤ c.toNat ∧ c.toNat ≤ 90 := ⟨hA, hZ⟩
    subst hdc had
    by_cases hsp : Char.toLower a = ' '
    · rw [hsp] at hup
      simp at hup
    · rw [if_neg hsp] at hup
      exact toLower_not_upper a hup
  · exact List.length_take_le 30 _
  · have hmap : (((s.data.map (fun c => if c = ' ' then '_' else c)).map Char.toLower).map
        (fun c => if c = ' ' then '_' else c)) =
        ((s.data.map Char.toLower).map (fun c => if c = ' ' then '_' else c)) := by
      rw [List.map_map, List.map_map, List.map_map]
      refine List.map_congr_left ?_
      intro a _
      by_cases hsp : a = ' '
      · subst hsp
        rfl
      · simp only [Function.comp]
        rw [if_neg hsp]
    show String.mk (((((String.mk (s.data.map (fun c => if c = ' ' then '_' else c))).data.map
        Char.toLower).map (fun c => if c = ' ' then '_' else c)).filter
          (fun c => isAsciiAlnum c || c = '_' || c = '-')).take 30) =
      String.mk ((((s.data.map Char.toLower).map (fun c => if c = ' ' then '_' else c)).filter
          (fun c => isAsciiAlnum c || c = '_' || c = '-')).take 30)
    rw [show (String.mk (s.data.map (fun c => if c = ' ' then '_' else c))).data
        = s.data.map (fun c => if c = ' ' then '_' else c) from rfl]
    rw [hmap]

theorem loop_all_collide (createRef : String → Option ApiError) (base : String)
    (suffix : Nat) (lastError : GhFailure) (hle : suffix ≤ MAX_SUFFIX)
    (h : ∀ s, suffix ≤ s → s ≤ MAX_SUFFIX →
      ∃ e, createRef (branchNameAt base s) = some e ∧ isCollisionError e = true) :
    ∃ e9, createRef (branchNameAt base MAX_SUFFIX) = some e9 ∧
      create_branch_loop createRef base lastError suffix = .internalError (.api e9) := by
  obtain ⟨e, he, hec⟩ := h suffix le_rfl hle
  by_cases hlast : suffix = MAX_SUFFIX
  · subst hlast
    refine ⟨e, he, ?_⟩
    unfold create_branch_loop
    rw [if_pos hle, he]
    simp only [hec, if_true]
    unfold create_branch_loop
    rw [if_neg (by omega)]
  · have hlt : suffix < MAX_SUFFIX := lt_of_le_of_ne hle hlast
    obtain ⟨e9, he9, hloop⟩ := loop_all_collide createRef base (suffix + 1) (.api e) (by omega)
      (fun s hs1 hs2 => h s (by omega) hs2)
    refine ⟨e9, he9, ?_⟩
    unfold create_branch_loop
    rw [if_pos hle, he]
    simp only [hec, if_true]
    exact hloop
termination_by MAX_SUFFIX + 1 - suffix

theorem loop_skip (createRef : String → Option ApiError) (base : String)
    (suffix k : Nat) (lastError : GhFailure) (hsk : suffix ≤ k) (hk : k ≤ MAX_SUFFIX)
    (h : ∀ s, suffix ≤ s → s < k → isCollisionResult (createRef (branchNameAt base s)) = true) :
    ∃ le2, create_branch_loop createRef base lastError suffix =
      create_branch_loop createRef base le2 k := by
  by_cases heq : suffix = k
  · subst heq
    exact ⟨lastError, rfl⟩
  · have hlt : suffix < k := lt_of_le_of_ne hsk heq
    have hcoll := h suffix le_rfl hlt
    obtain ⟨e, he⟩ : ∃ e, createRef (branchNameAt base suffix) = some e := by
      cases hval : createRef (branchNameAt base suffix) with
      | none => rw [hval] at hcoll; simp [isCollisionResult] at hcoll
      | some e => exact ⟨e, rfl⟩
    rw [he] at hcoll
    replace hcoll : isCollisionError e = true := by
      simpa [isCollisionResult] using hcoll
    obtain ⟨le2, hrec⟩ := loop_skip createRef base (suffix + 1) k (.api e) (by omega) hk
      (fun s hs1 hs2 => h s (by omega) hs2)
    refine ⟨le2, ?_⟩
    have hstep : create_branch_loop createRef base lastError suffix =
        create_branch_loop createRef base (.api e) (suffix + 1) := by
      conv_lhs => rw [create_branch_loop]
      rw [if_pos (by omega : suffix ≤ MAX_SUFFIX), he]
      simp only [hcoll, if_true]
    rw [hstep, hrec]
termination_by k - suffix

theorem loop_ext (createRef createRef' : String → Option ApiError) (base : String)
    (suffix : Nat) (lastError : GhFailure)
    (h : ∀ s, suffix ≤ s → s ≤ MAX_SUFFIX →
      createRef' (branchNameAt base s) = createRef (branchNameAt base s)) :
    create_branch_loop createRef' base lastError suffix =
      create_branch_loop createRef base lastError suffix := by
  by_cases hle : suffix ≤ MAX_SUFFIX
  · have hrec : ∀ e : ApiError, create_branch_loop createRef' base (.api e) (suffix + 1) =
        create_branch_loop createRef base (.api e) (suffix + 1) :=
      fun e => loop_ext createRef createRef' base (suffix + 1) (.api e)
        (fun s hs1 hs2 => h s (by omega) hs2)
    unfold create_branch_loop
    rw [if_pos hle, if_pos hle, h suffix le_rfl hle]
    cases createRef (branchNameAt base suffix) with
    | none => rfl
    | some e =>
      by_cases hc : isCollisionError e = true
      · simp only [hc, if_true]
        exact hrec e
      · simp [hc]
  · unfold create_branch_loop
    rw [if_neg hle, if_neg hle]
termination_by MAX_SUFFIX + 1 - suffix

/-- C5: the branch-creation loop retries with a numeric suffix only on
a name collision (HTTP 422), accumulates the last collision cause, and
is bounded: (1) when every one of the `MAX_SUFFIX + 1` attempts
collides, it returns a failure carrying the collision cause of the last
attempt; (2) a non-collision error at any attempt is returned
immediately; (3) a successful attempt returns the branch name that was
created; (4) the outcome depends only on the outcomes of the bounded
set of attempted branch names, so no more than `MAX_SUFFIX + 1`
attempts are ever consulted. -/
theorem c5_create_branch_retry (createRef createRef' : String → Option ApiError)
    (base : String) :
    ((∀ s, s ≤ MAX_SUFFIX → isCollisionResult (createRef (branchNameAt base s)) = true) →
      ∃ e9, createRef (branchNameAt base MAX_SUFFIX) = some e9 ∧
        create_branch createRef base = .internalError (.api e9)) ∧
    (∀ k e, k ≤ MAX_SUFFIX →
      (∀ s, s < k → isCollisionResult (createRef (branchNameAt base s)) = true) →
      createRef (branchNameAt base k) = some e → isCollisionError e = false →
      create_branch createRef base = .internalError (.api e)) ∧
    (∀ k, k ≤ MAX_SUFFIX →
      (∀ s, s < k → isCollisionResult (createRef (branchNameAt base s)) = true) →
      createRef (branchNameAt base k) = none →
      create_branch createRef base = .ok (branchNameAt base k)) ∧
    ((∀ s, s ≤ MAX_SUFFIX → createRef' (branchNameAt base s) = createRef (branchNameAt base s)) →
      create_branch createRef' base = create_branch createRef base) := by
  refine ⟨?_, ?_, ?_, ?_⟩
  · intro h
    have h2 : ∀ s, 0 ≤ s → s ≤ MAX_SUFFIX →
        ∃ e, createRef (branchNameAt base s) = some e ∧ isCollisionError e = true := by
      intro s _ hs
      have := h s hs
      unfold isCollisionResult at this
      cases hval : createRef (branchNameAt base s) with
      | none => rw [hval] at this; simp at this
      | some e =>
        rw [hval] at this
        exact ⟨e, rfl, this⟩
    obtain ⟨e9, he9, hloop⟩ :=
      loop_all_collide createRef base 0 (.message "Failed to create branch for event PR.")
        (by omega) h2
    exact ⟨e9, he9, hloop⟩
  · intro k e hk h he hnc
    obtain ⟨le2, hskip⟩ := loop_skip createRef base 0 k
      (.message "Failed to create branch for event PR.") (by omega) hk
      (fun s _ hs2 => h s hs2)
    unfold create_branch
    rw [hskip]
    unfold create_branch_loop
    rw [if_pos hk, he]
    simp [hnc]
  · intro k hk h he
    obtain ⟨le2, hskip⟩ := loop_skip createRef base 0 k
      (.message "Failed to create branch for event PR.") (by omega) hk
      (fun s _ hs2 => h s hs2)
    unfold create_branch
    rw [hskip]
    unfold create_branch_loop
    rw [if_pos hk, he]
  · intro h
    exact loop_ext createRef createRef' base 0 _ (fun s _ hs2 => h s hs2)

/-- Witness for C5: with a `create_ref` that reports a name collision
for every branch name, the operation returns the failure carrying the
last collision cause. -/
theorem c5_create_branch_retry_witness :
    create_branch (fun _ => some ⟨some 422, "Reference already exists"⟩) "add-a-b-c" =
      .internalError (.api ⟨some 422, "Reference already exists"⟩) := by
  obtain ⟨e9, he9, hres⟩ :=
    (c5_create_branch_retry (fun _ => some ⟨some 422, "Reference already exists"⟩)
      (fun _ => none) "add-a-b-c").1 (fun s _ => rfl)
  have : e9 = ⟨some 422, "Reference already exists"⟩ := by
    have := he9.symm
    injection this
  rw [this] at hres
  exact hres

theorem daysInMonth_ge (y : Int) (m : Nat) : 28 ≤ daysInMonth y m := by
  unfold daysInMonth
  split
  · split <;> omega
  · split <;> omega

theorem daysInMonth_le (y : Int) (m : Nat) : daysInMonth y m ≤  31 := by
  unfold daysInMonth
  split
  · split <;> omega
  · split <;> omega

theorem naiveDate_valid_iff (d : NaiveDate) :
    d.Valid ↔ (1 ≤ d.month ∧ d.month ≤ 12 ∧ 1 ≤ d.day ∧
      d.day ≤ daysInMonth d.year d.month ∧ -262144 ≤ d.year) := Iff.rfl

theorem predOpt_nextDay (d : NaiveDate) (hv : d.Valid) (hmin : d ≠ minDate) :
    ∃ p, d.predOpt = some p ∧ p.nextDay = d ∧ p.Valid := by
  obtain ⟨y, m, day⟩ := d
  rw [naiveDate_valid_iff] at hv
  obtain ⟨hm1, hm12, hd1, hdm, hy⟩ := hv
  dsimp only at hm1 hm12 hd1 hdm hy
  simp only [minDate, ne_eq, NaiveDate.mk.injEq] at hmin
  unfold NaiveDate.predOpt
  rw [if_neg (by simp only [minDate, ne_eq, NaiveDate.mk.injEq]; tauto)]
  dsimp only
  by_cases h2 : 2 ≤ day
  · rw [if_pos h2]
    refine ⟨_, rfl, ?_, ?_⟩
    · unfold NaiveDate.nextDay
      dsimp only
      rw [if_pos (by omega)]
      simp only [NaiveDate.mk.injEq, true_and, and_true]
      omega
    · rw [naiveDate_valid_iff]
      dsimp only
      omega
  · rw [if_neg h2]
    by_cases hm2 : 2 ≤ m
    · rw [if_pos hm2]
      refine ⟨_, rfl, ?_, ?_⟩
      · unfold NaiveDate.nextDay
        dsimp only
        rw [if_neg (by omega), if_pos (by omega)]
        simp only [NaiveDate.mk.injEq, true_and, and_true]
        omega
      · rw [naiveDate_valid_iff]
        dsimp only
        have hge := daysInMonth_ge y (m - 1)
        omega
    · rw [if_neg hm2]
      refine ⟨_, rfl, ?_, ?_⟩
      · unfold NaiveDate.nextDay
        dsimp only
        rw [if_neg (by simp only [daysInMonth]; norm_num), if_neg (by omega)]
        simp only [NaiveDate.mk.injEq, true_and, and_true]
        omega
      · rw [naiveDate_valid_iff]
        dsimp only
        simp only [daysInMonth]
        norm_num
        omega

/-- C3: for every whole-day event (start and end both dates), the
converted event time is `DateOnly` with the same start date and an
inclusive end date equal to the upstream exclusive end date minus one
day: the day whose successor is the upstream end date. -/
theorem c3_whole_day_end_inclusive
    (amsterdamLocal : LocalDateTime → Option FixedDateTime) (ev : IcalEvent)
    (sd ed : NaiveDate) (hs : ev.start = some (.date sd)) (he : ev.eend = some (.date ed))
    (hv : ed.Valid) (hmin : ed ≠ minDate) :
    ∃ ed2, get_time amsterdamLocal ev = .ok (.dateOnly sd ed2) ∧ ed2.nextDay = ed := by
  obtain ⟨p, hp, hnext, _⟩ := predOpt_nextDay ed hv hmin
  refine ⟨p, ?_, hnext⟩
  unfold get_time
  rw [hs, he]
  simp [hp]

/-- Witness for C3 at a concrete whole-day event: upstream
2024-01-05 .. 2024-01-06 (exclusive) becomes 2024-01-05 .. 2024-01-05
(inclusive). -/
theorem c3_whole_day_end_inclusive_witness :
    ∃ ed2, get_time (fun _ => none)
        ⟨some "u", some "s", some "d", some "l",
         some (.date ⟨2024, 1, 5⟩), some (.date ⟨2024, 1, 6⟩)⟩ =
        .ok (.dateOnly ⟨2024, 1, 5⟩ ed2) ∧ ed2.nextDay = ⟨2024, 1, 6⟩ :=
  c3_whole_day_end_inclusive (fun _ => none) _ ⟨2024, 1, 5⟩ ⟨2024, 1, 6⟩ rfl rfl
    (by decide) (by decide)

/-- C6: if style derivation returns an empty style set for a CDSS
record, the converter yields no event (and no error), and the record
contributes nothing to the output batch: deleting it from the input
leaves the imported batch unchanged. -/
theorem c6_empty_styles_dropped (bands callers : List String) (r : CdssEvent)
    (cv : String) (rest : List String) (hcat : r.categories = some (cv :: rest))
    (hsty : get_styles (ssplit cv ",") r.parts.summary = []) :
    convertCdss bands callers r = .ok none ∧
    ∀ before after, import_events_cdss bands callers (before ++ r :: after) =
      import_events_cdss bands callers (before ++ after) := by
  have h1 : convertCdss bands callers r = .ok none := by
    unfold convertCdss
    rw [hcat]
    by_cases hA : ((ssplit cv ",").contains "Online Event"
        || scontains (slower r.parts.summary) "online") = true
    · simp only [hA, if_true]
    · simp only [hA, if_false]
      rw [hsty]
      simp
  refine ⟨h1, ?_⟩
  intro before after
  unfold import_events_cdss
  rw [List.filterMap_append, List.filterMap_append, List.filterMap_cons, h1]
  simp [transposeR]

/-- Witness for C6 at a concrete record whose categories and summary
derive no style. -/
theorem c6_empty_styles_dropped_witness :
    convertCdss [] [] ⟨some ["Other"],
      ⟨"u", "s", "d", .dateOnly ⟨2024, 1, 1⟩ ⟨2024, 1, 1⟩, some ["a", "b", "c"], none⟩⟩ =
      .ok none ∧
    import_events_cdss [] [] [⟨some ["Other"],
      ⟨"u", "s", "d", .dateOnly ⟨2024, 1, 1⟩ ⟨2024, 1, 1⟩, some ["a", "b", "c"], none⟩⟩] =
      import_events_cdss [] [] [] := by
  have h := c6_empty_styles_dropped [] [] ⟨some ["Other"],
    ⟨"u", "s", "d", .dateOnly ⟨2024, 1, 1⟩ ⟨2024, 1, 1⟩, some ["a", "b", "c"], none⟩⟩
    "Other" [] rfl (by decide)
  refine ⟨h.1, ?_⟩
  have h2 := h.2 [] []
  simpa using h2

/-- Counterexample for C10: a CDSS record passing the three-part
location guard whose country is the United States makes `convert` index
`location_parts[location_parts.len() - 4]`, which is out of range —
the Rust code panics (usize underflow / index out of bounds). -/
theorem c10_location_crash_counterexample :
    convertCdss [] [] ⟨some ["Contra Dance"],
      ⟨"u", "s", "d", .dateOnly ⟨2024, 1, 1⟩ ⟨2024, 1, 1⟩,
       some ["Greenfield", "MA", "United States"], none⟩⟩ = .error .crash := by rfl

theorem parseU32_error (x : List Char) (ex : RErr) (h : parseU32 x = .error ex) :
    ex = .report "Invalid price" := by
  unfold parseU32 at h
  dsimp only at h
  split at h
  · simp at h
  · simp at h
    exact h.symm

theorem collectR_parseU32_error (l : List (List Char)) (e : RErr)
    (h : collectR (l.map parseU32) = .error e) : e = .report "Invalid price" := by
  induction l with
  | nil => simp [collectR] at h
  | cons x xs ih =>
    simp only [List.map_cons, collectR] at h
    cases hpx : parseU32 x with
    | error ex =>
      rw [hpx] at h
      simp at h
      subst h
      exact parseU32_error x _ hpx
    | ok a =>
      rw [hpx] at h
      cases hrec : collectR (xs.map parseU32) with
      | ok v => rw [hrec] at h; simp [Except.map] at h
      | error e2 =>
        rw [hrec] at h
        simp [Except.map] at h
        subst h
        exact ih hrec

theorem get_price_not_crash (d : String) : get_price d ≠ .error .crash := by
  unfold get_price
  cases h : collectR ((priceCaptures d.data).map parseU32) with
  | ok prices => simp
  | error e =>
    have := collectR_parseU32_error _ _ h
    subst this
    simp

theorem ite_ok_ne_error {ε α : Type} (C : Prop) [Decidable C] (a b : α) (e : ε) :
    (if C then Except.ok a else Except.ok b) ≠ Except.error e := by
  split <;> simp

/-- C10 (amended): with at least three comma-separated location parts,
the location indexing of the CDSS `convert` is within bounds whenever
the country is not USA or Canada; when the country is USA or Canada (a
raw last part of United States, USA or Canada) four parts are needed.
Under either condition `convert` never reaches the out-of-range
indexing (modelled as `.crash`). -/
theorem c10_location_indexing_in_bounds (bands callers : List String) (r : CdssEvent)
    (ps : List String) (hloc : r.parts.location_parts = some ps)
    (hsafe : 4 ≤ ps.length ∨ (3 ≤ ps.length ∧
      ps.getD (ps.length - 1) "" ∉ (["United States", "USA", "Canada"] : List String))) :
    convertCdss bands callers r ≠ .error .crash := by
  intro hcrash
  unfold convertCdss at hcrash
  cases hcat : r.categories with
  | none => rw [hcat] at hcrash; simp at hcrash
  | some l =>
    rw [hcat] at hcrash
    cases l with
    | nil => simp at hcrash
    | cons cv rest =>
      rw [hloc] at hcrash
      simp only [] at hcrash
      split at hcrash
      · simp at hcrash
      · split at hcrash
        · simp at hcrash
        · split at hcrash
          · simp at hcrash
          · split at hcrash
            · -- the state/city computation produced an error
              rename_i e hsc
              simp only [Except.error.injEq] at hcrash
              subst hcrash
              rcases hsafe with h4 | ⟨h3, hmem⟩
              · simp only [h4, if_true] at hsc
                exact ite_ok_ne_error _ _ _ _ hsc
              · simp only [List.mem_cons, List.not_mem_nil, or_false] at hmem
                push_neg at hmem
                obtain ⟨hne1, hne2, hne3⟩ := hmem
                rw [if_neg hne1] at hsc
                by_cases huk : ps.getD (ps.length - 1) "" = "United Kingdom"
                · rw [if_pos huk] at hsc
                  simp at hsc
                · rw [if_neg huk] at hsc
                  rw [if_neg (by push_neg; exact ⟨hne3, hne2⟩)] at hsc
                  simp at hsc
            · -- the state/city computation succeeded; only get_price remains
              split at hcrash
              · rename_i e2 hgp
                simp only [Except.error.injEq] at hcrash
                subst hcrash
                exact get_price_not_crash _ hgp
              · simp at hcrash

/-- Witness for the amended C10 at a three-part location outside USA
and Canada. -/
theorem c10_location_indexing_in_bounds_witness :
    convertCdss [] [] ⟨some ["Contra Dance"],
      ⟨"u", "s", "d", .dateOnly ⟨2024, 1, 1⟩ ⟨2024, 1, 1⟩,
       some ["Utrecht", "UT", "Netherlands"], none⟩⟩ ≠ .error .crash :=
  c10_location_indexing_in_bounds [] [] _ ["Utrecht", "UT", "Netherlands"] rfl
    (Or.inr ⟨by decide, by decide⟩)

/-- Counterexample for C7: a balfolk.nl record whose location does not
have the expected number of parts is NOT skipped — `convert` logs a
warning and keeps the event with an empty city, and the event appears
in the output batch. -/
theorem c7_invalid_location_kept_counterexample :
    convertBal (fun _ => none) ⟨some "https://balfolk.nl/e", some "Avondbal, Amsterdam",
      some "x", some "Somewhere", some (.date ⟨2024, 1, 2⟩), some (.date ⟨2024, 1, 3⟩)⟩ =
      .ok (some {
        name := "Avondbal", details := some "x", links := ["https://balfolk.nl/e"],
        time := .dateOnly ⟨2024, 1, 2⟩ ⟨2024, 1, 2⟩, country := "Netherlands", state := none,
        city := "", styles := [.balfolk], workshop := false, social := true, bands := [],
        callers := [], price := none, organisation := some "balfolk.nl",
        cancelled := false }) ∧
    import_events_balfolknl (fun _ => none)
      [.eventC ⟨some "https://balfolk.nl/e", some "Avondbal, Amsterdam",
        some "x", some "Somewhere", some (.date ⟨2024, 1, 2⟩), some (.date ⟨2024, 1, 3⟩)⟩] =
      .ok ⟨[{
        name := "Avondbal", details := some "x", links := ["https://balfolk.nl/e"],
        time := .dateOnly ⟨2024, 1, 2⟩ ⟨2024, 1, 2⟩, country := "Netherlands", state := none,
        city := "", styles := [.balfolk], workshop := false, social := true, bands := [],
        callers := [], price := none, organisation := some "balfolk.nl",
        cancelled := false }]⟩ := ⟨rfl, rfl⟩

/-- C7 (amended): a location with fewer comma-separated parts than the
adapter expects is handled per adapter.  The CDSS converter skips the
event (no error, logged): with fewer than 3 parts it returns no event.
The balfolk.nl converter does NOT skip: with fewer than 4 parts it logs
a warning and keeps the event with an empty city. -/
theorem c7_short_location_handling :
    (∀ (bands callers : List String) (r : CdssEvent) (cv : String) (rest : List String)
        (ps : List String),
      r.categories = some (cv :: rest) →
      ((ssplit cv ",").contains "Online Event"
        || scontains (slower r.parts.summary) "online") = false →
      (get_styles (ssplit cv ",") r.parts.summary).isEmpty = false →
      r.parts.location_parts = some ps → ps.length < 3 →
      convertCdss bands callers r = .ok none) ∧
    (∀ (f : LocalDateTime → Option FixedDateTime) (ev : IcalEvent) (loc : String) (e : Event),
      ev.location = some loc → (ssplit loc "\\, ").length < 4 →
      convertBal f ev = .ok (some e) → e.city = "") := by
  constructor
  · intro bands callers r cv rest ps hcat hon hsty hloc hlen
    unfold convertCdss
    rw [hcat, hloc]
    simp only [hon, hsty, if_false, Bool.false_eq_true]
    rw [if_pos hlen]
  · intro f ev loc e hloc hlen h
    unfold convertBal at h
    cases hu : ev.url with
    | none => rw [hu] at h; simp at h
    | some url =>
      rw [hu] at h
      cases hs : ev.summary with
      | none => rw [hs] at h; simp at h
      | some su =>
        rw [hs] at h
        simp only [] at h
        split at h
        · simp at h
        · cases hd : ev.description with
          | none => rw [hd] at h; simp at h
          | some d =>
            rw [hd] at h
            cases hgt : get_time f ev with
            | error er => rw [hgt] at h; simp at h
            | ok t =>
              rw [hgt] at h
              rw [hloc] at h
              simp only [Except.ok.injEq, Option.some.injEq] at h
              subst h
              dsimp only
              rw [if_neg (by omega), if_neg (by omega)]

/-- Witness for the amended C7: a two-part CDSS location is skipped;
the concrete balfolk.nl event produced from a one-part location has an
empty city. -/
theorem c7_short_location_handling_witness :
    convertCdss [] [] ⟨some ["Contra Dance"],
      ⟨"u", "s", "d", .dateOnly ⟨2024, 1, 1⟩ ⟨2024, 1, 1⟩, some ["Boston", "USA"], none⟩⟩ =
      .ok none ∧
    ({ name := "Avondbal", details := some "x", links := ["https://balfolk.nl/e"],
       time := .dateOnly ⟨2024, 1, 2⟩ ⟨2024, 1, 2⟩, country := "Netherlands", state := none,
       city := "", styles := [.balfolk], workshop := false, social := true, bands := [],
       callers := [], price := none, organisation := some "balfolk.nl",
       cancelled := false } : Event).city = "" := by
  constructor
  · exact c7_short_location_handling.1 [] [] _ "Contra Dance" [] ["Boston", "USA"]
      rfl (by decide) (by decide) rfl (by decide)
  · exact c7_short_location_handling.2 (fun _ => none)
      ⟨some "https://balfolk.nl/e", some "Avondbal, Amsterdam",
       some "x", some "Somewhere", some (.date ⟨2024, 1, 2⟩), some (.date ⟨2024, 1, 3⟩)⟩
      "Somewhere" _ rfl (by decide) rfl

/-- Counterexample for C8: for balfolk.nl, roster matching is
case-sensitive and looks only at the raw description.  On a social
event whose description contains the roster band Achterband only in
lower case, the code produces an empty band list, while the lower-cased
matching the claim describes (the spec-modelled `lowercase_matches`)
finds the band. -/
theorem c8_band_matching_counterexample :
    Except.map (Option.map Event.bands)
      (convertBal (fun _ => none) ⟨some "u", some "Avondbal, X", some "achterband speelt",
        some "Somewhere", some (.date ⟨2024, 1, 2⟩), some (.date ⟨2024, 1, 3⟩)⟩) =
      .ok (some []) ∧
    lowercase_matches BANDS (slower "achterband speelt") (slower "Avondbal, X") =
      ["Achterband"] := ⟨rfl, rfl⟩

theorem filterMap_guard_eq_filter (p : String → Bool) (l : List String) :
    l.filterMap (fun x => if p x then some x else none) = l.filter p := by
  induction l with
  | nil => rfl
  | cons x xs ih =>
    by_cases hx : p x
    · simp [List.filterMap_cons, List.filter_cons, hx, ih]
    · simp [List.filterMap_cons, List.filter_cons, hx, ih]

/-- C8 (amended): roster matching is adapter-specific.  The shared
`lowercase_matches` (used by CDSS, modelled from the spec) includes
exactly the roster names whose lower-cased form is contained in the
lower-cased description or summary, in roster order.  The balfolk.nl
converter instead matches the roster case-sensitively against the raw
description only, and only for social events; the produced band list is
still in roster order. -/
theorem c8_band_roster_matching :
    (∀ (roster : List String) (dl sl : String),
      (lowercase_matches roster dl sl).Sublist roster ∧
      (∀ n, n ∈ lowercase_matches roster dl sl ↔ n ∈ roster ∧
        (scontains dl (slower n) || scontains sl (slower n)) = true)) ∧
    (∀ (f : LocalDateTime → Option FixedDateTime) (ev : IcalEvent) (d : String) (e : Event),
      ev.description = some d → convertBal f ev = .ok (some e) →
      e.bands.Sublist BANDS ∧
      (∀ b, b ∈ e.bands ↔ e.social = true ∧ b ∈ BANDS ∧
        scontains (unescape d) b = true)) := by
  constructor
  · intro roster dl sl
    refine ⟨List.filter_sublist _, ?_⟩
    intro n
    rw [lowercase_matches, List.mem_filter]
  · intro f ev d e hd h
    unfold convertBal at h
    cases hu : ev.url with
    | none => rw [hu] at h; simp at h
    | some url =>
      rw [hu] at h
      cases hs : ev.summary with
      | none => rw [hs] at h; simp at h
      | some su =>
        rw [hs] at h
        simp only [] at h
        split at h
        · simp at h
        · rw [hd] at h
          cases hgt : get_time f ev with
          | error er => rw [hgt] at h; simp at h
          | ok t =>
            rw [hgt] at h
            cases hl : ev.location with
            | none => rw [hl] at h; simp at h
            | some loc =>
              rw [hl] at h
              simp only [Except.ok.injEq, Option.some.injEq] at h
              subst h
              dsimp only
              rw [filterMap_guard_eq_filter]
              constructor
              · split
                · exact List.filter_sublist _
                · exact List.nil_sublist _
              · intro b
                split
                · rename_i hsoc
                  simp only [hsoc, List.mem_filter, true_and]
                · rename_i hsoc
                  simp only [List.not_mem_nil, false_iff]
                  intro hcon
                  exact hsoc hcon.1

/-- Witness for the amended C8: the lower-cased matcher finds
Achterband in a lower-case description, and the band list of a concrete
balfolk.nl event is a sublist of the roster. -/
theorem c8_band_roster_matching_witness :
    ("Achterband" ∈ lowercase_matches BANDS (slower "achterband speelt")
      (slower "Avondbal, X")) ∧
    (({ name := "Avondbal", details := some "achterband speelt", links := ["u"],
        time := .dateOnly ⟨2024, 1, 2⟩ ⟨2024, 1, 2⟩, country := "Netherlands", state := none,
        city := "", styles := [.balfolk], workshop := false, social := true, bands := [],
        callers := [], price := none, organisation := some "balfolk.nl",
        cancelled := false } : Event)).bands.Sublist BANDS := by
  constructor
  · exact ((c8_band_roster_matching.1 BANDS (slower "achterband speelt")
      (slower "Avondbal, X")).2 "Achterband").mpr ⟨by decide, by decide⟩
  · exact (c8_band_roster_matching.2 (fun _ => none)
      ⟨some "u", some "Avondbal, X", some "achterband speelt", some "Somewhere",
       some (.date ⟨2024, 1, 2⟩), some (.date ⟨2024, 1, 3⟩)⟩
      "achterband speelt" _ rfl rfl).1

/-- Counterexample for C2: in the balfolk.nl importer a record missing
a mandatory field (here the URL) is a converter error, and the error
aborts the WHOLE source import via the `collect::<Result<_, _>>()?`:
with a perfectly good record in the same feed, the import returns the
error and the good record's event is lost, instead of skipping only
the bad event. -/
theorem c2_event_error_fatal_counterexample :
    convertBal (fun _ => none) ⟨none, some "Avondbal, X", some "x", some "Somewhere",
      some (.date ⟨2024, 1, 2⟩), some (.date ⟨2024, 1, 3⟩)⟩ =
      .error (.report "Event missing url.") ∧
    import_events_balfolknl (fun _ => none)
      [.eventC ⟨some "https://balfolk.nl/e", some "Avondbal, Amsterdam",
        some "x", some "Somewhere", some (.date ⟨2024, 1, 2⟩), some (.date ⟨2024, 1, 3⟩)⟩,
       .eventC ⟨none, some "Avondbal, X", some "x", some "Somewhere",
        some (.date ⟨2024, 1, 2⟩), some (.date ⟨2024, 1, 3⟩)⟩] =
      .error (.report "Event missing url.") := ⟨rfl, rfl⟩

theorem collectR_append_error {α : Type} (l1 l2 : List (Except RErr α)) (e : RErr) :
    ∃ e2, collectR (l1 ++ .error e :: l2) = .error e2 := by
  induction l1 with
  | nil => exact ⟨e, rfl⟩
  | cons x xs ih =>
    obtain ⟨e2, he2⟩ := ih
    cases x with
    | error e3 => exact ⟨e3, rfl⟩
    | ok a =>
      refine ⟨e2, ?_⟩
      simp only [List.cons_append, collectR, List.append_eq, he2, Except.map]

/-- C2 (amended): the scope of an event-level failure depends on how
the converter reports it.  Failures the converter turns into `Ok(None)`
(plug.events: missing venueLocale) skip only that event and the source
still returns a batch with the other records.  Failures the converter
reports as an error (balfolk.nl: missing URL, summary, description,
time or location, bad timezone, ambiguous time) abort the whole source
batch through `collect::<Result<_, _>>()?`, so a per-event error IS
fatal to that source's import run. -/
theorem c2_per_event_error_scope :
    (∀ (r : PlugEvent) (style : DanceStyle), r.venue_locale = none →
      convertPlug r style = .ok none) ∧
    (∀ (r : PlugEvent), r.venue_locale = none → ∀ before after,
      import_events_plugevents (before ++ r :: after) =
        import_events_plugevents (before ++ after)) ∧
    (∀ (f : LocalDateTime → Option FixedDateTime) (ev : IcalEvent) (e : RErr)
        (before after : List CalendarComponentM),
      convertBal f ev = .error e →
      ∃ e2, import_events_balfolknl f (before ++ .eventC ev :: after) = .error e2) := by
  refine ⟨?_, ?_, ?_⟩
  · intro r style hvl
    unfold convertPlug
    rw [hvl]
  · intro r hvl before after
    have h1 : convertPlug r DanceStyle.balfolk = .ok none := by
      unfold convertPlug
      rw [hvl]
    unfold import_events_plugevents
    rw [List.filterMap_append, List.filterMap_append, List.filterMap_cons, h1]
    simp [transposeR]
  · intro f ev e before after herr
    unfold import_events_balfolknl
    set g := (fun component => match component with
        | CalendarComponentM.eventC ev2 => transposeR (convertBal f ev2)
        | CalendarComponentM.otherC => none) with hg
    rw [List.filterMap_append, List.filterMap_cons]
    have hgev : g (CalendarComponentM.eventC ev) = some (Except.error e) := by
      rw [hg]
      dsimp only
      rw [herr]
      rfl
    rw [hgev]
    obtain ⟨e2, he2⟩ := collectR_append_error
      (List.filterMap g before) (List.filterMap g after) e
    dsimp only
    rw [he2]
    exact ⟨e2, rfl⟩

/-- Witness for the amended C2: a plug.events record without venueLocale
converts to no event (skip, no error); a balfolk.nl feed containing a
record without a URL fails as a whole. -/
theorem c2_per_event_error_scope_witness :
    convertPlug ⟨"N", "D", none, none, 0, 0, 0, "https://p", true, none, none⟩
      DanceStyle.balfolk = .ok none ∧
    ∃ e2, import_events_balfolknl (fun _ => none)
      ([] ++ .eventC ⟨none, some "S", some "d", some "L", some (.date ⟨2024, 1, 2⟩),
        some (.date ⟨2024, 1, 3⟩)⟩ :: []) = .error e2 := by
  constructor
  · exact c2_per_event_error_scope.1 _ _ rfl
  · exact c2_per_event_error_scope.2.2 (fun _ => none) _ (.report "Event missing url.")
      [] [] rfl

/-- Counterexample for C4: importers never check `end >= start`.  A
whole-day record with DTSTART = DTEND (as some feeds emit for
single-day events) converts to an inclusive end date strictly BEFORE
the start date; a plug.events record whose upstream end precedes its
start passes through with end before start as well. -/
theorem c4_end_before_start_counterexample :
    get_time (fun _ => none) ⟨some "u", some "s", some "d", some "l",
      some (.date ⟨2024, 1, 5⟩), some (.date ⟨2024, 1, 5⟩)⟩ =
      .ok (.dateOnly ⟨2024, 1, 5⟩ ⟨2024, 1, 4⟩) ∧
    NaiveDate.lt ⟨2024, 1, 4⟩ ⟨2024, 1, 5⟩ = True ∧
    Except.map (Option.map Event.time)
      (convertPlug ⟨"N", "D", some "Utrecht", none, 100, 0, 0, "https://p", true, none, none⟩
        DanceStyle.balfolk) = .ok (some (.dateTime ⟨60, 0⟩ ⟨0, 0⟩)) ∧
    (0 : Int) < 60 := ⟨rfl, by simp [NaiveDate.lt], rfl, by omega⟩

theorem le_of_lt_nextDay (x p : NaiveDate) (hx : x.Valid) (hp : p.Valid)
    (h : x.lt p.nextDay) : x.le p := by
  obtain ⟨xy, xm, xd⟩ := x
  obtain ⟨py, pm, pd⟩ := p
  rw [naiveDate_valid_iff] at hx hp
  dsimp only at hx hp
  unfold NaiveDate.nextDay at h
  dsimp only at h
  unfold NaiveDate.le
  dsimp only
  by_cases h1 : pd < daysInMonth py pm
  · rw [if_pos h1] at h
    unfold NaiveDate.lt at h
    dsimp only at h
    omega
  · rw [if_neg h1] at h
    by_cases h2 : pm < 12
    · rw [if_pos h2] at h
      unfold NaiveDate.lt at h
      dsimp only at h
      rcases h with hlt | ⟨heqy, hrest⟩
      · exact Or.inl hlt
      · subst heqy
        rcases hrest with hm | ⟨heqm, hd⟩
        · by_cases hxm : xm = pm
          · subst hxm
            exact Or.inr ⟨rfl, Or.inr ⟨rfl, by omega⟩⟩
          · exact Or.inr ⟨rfl, Or.inl (by omega)⟩
        · omega
    · rw [if_neg h2] at h
      unfold NaiveDate.lt at h
      dsimp only at h
      rcases h with hlt | ⟨heqy, hrest⟩
      · by_cases hxy : xy = py
        · subst hxy
          by_cases hxm : xm = pm
          · subst hxm
            exact Or.inr ⟨rfl, Or.inr ⟨rfl, by omega⟩⟩
          · exact Or.inr ⟨rfl, Or.inl (by omega)⟩
        · exact Or.inl (by omega)
      · omega

theorem minDate_le_of_valid (d : NaiveDate) (hd : d.Valid) : minDate.le d := by
  obtain ⟨y, m, day⟩ := d
  rw [naiveDate_valid_iff] at hd
  dsimp only at hd
  unfold NaiveDate.le minDate
  dsimp only
  omega

theorem naive_lt_le_absurd (a b : NaiveDate) (h1 : a.lt b) (h2 : b.le a) : False := by
  unfold NaiveDate.lt at h1
  unfold NaiveDate.le at h2
  omega

/-- C4 (amended): the importers enforce no `end >= start` check; the
invariant holds only when the upstream data already satisfies it.  For
whole-day events with valid dates whose exclusive upstream end is
strictly after the start, the converted inclusive end date is not
before the start date; for plug.events timestamped events whose
upstream end instant is not before the start instant, the converted end
instant is not before the converted (minute-floored) start instant. -/
theorem c4_time_invariant_conditional :
    (∀ (f : LocalDateTime → Option FixedDateTime) (ev : IcalEvent) (sd ed : NaiveDate),
      ev.start = some (.date sd) → ev.eend = some (.date ed) →
      sd.Valid → ed.Valid → sd.lt ed →
      ∃ ed2, get_time f ev = .ok (.dateOnly sd ed2) ∧ sd.le ed2) ∧
    (∀ (r : PlugEvent) (style : DanceStyle) (ev : Event),
      convertPlug r style = .ok (some ev) →
      r.start_date_time_iso ≤ r.end_date_time_iso →
      ∃ st en, ev.time = .dateTime st en ∧ st.instant ≤ en.instant) := by
  constructor
  · intro f ev sd ed hs he hsv hev hlt
    have hmin : ed ≠ minDate := by
      intro hcon
      subst hcon
      exact naive_lt_le_absurd sd minDate hlt (minDate_le_of_valid sd hsv)
    obtain ⟨p, hp, hnext, hpv⟩ := predOpt_nextDay ed hev hmin
    refine ⟨p, ?_, ?_⟩
    · unfold get_time
      rw [hs, he]
      simp [hp]
    · apply le_of_lt_nextDay sd p hsv hpv
      rw [hnext]
      exact hlt
  · intro r style ev h hle
    unfold convertPlug at h
    cases hvl : r.venue_locale with
    | none => rw [hvl] at h; simp at h
    | some vl =>
      rw [hvl] at h
      dsimp only at h
      cases hlast : (ssplit vl ", ").getLast? with
      | none => rw [hlast] at h; simp at h
      | some country =>
        rw [hlast] at h
        cases hfp : format_price r with
        | error e2 => rw [hfp] at h; simp at h
        | ok price =>
          rw [hfp] at h
          simp only [Except.ok.injEq, Option.some.injEq] at h
          subst h
          refine ⟨_, _, rfl, ?_⟩
          dsimp only [withSecondZero, withEventTimezone]
          have hm := Int.emod_nonneg (r.start_date_time_iso + r.timezone)
            (by norm_num : (60 : Int) ≠ 0)
          omega

/-- Witness for the amended C4 on concrete well-ordered upstream data. -/
theorem c4_time_invariant_conditional_witness :
    (∃ ed2, get_time (fun _ => none) ⟨some "u", some "s", some "d", some "l",
      some (.date ⟨2024, 1, 5⟩), some (.date ⟨2024, 1, 7⟩)⟩ =
      .ok (.dateOnly ⟨2024, 1, 5⟩ ed2) ∧ NaiveDate.le ⟨2024, 1, 5⟩ ed2) ∧
    (∃ st en, ({
        name := "N", details := some "D", links := ["https://p"],
        time := .dateTime ⟨0, 0⟩ ⟨100, 0⟩, country := "Utrecht", state := none,
        city := "Utrecht", styles := [.balfolk], workshop := false, social := false,
        bands := [], callers := [], price := some "free", organisation := none,
        cancelled := false } : Event).time = .dateTime st en ∧
      st.instant ≤ en.instant) := by
  constructor
  · exact c4_time_invariant_conditional.1 (fun _ => none)
      ⟨some "u", some "s", some "d", some "l",
        some (.date ⟨2024, 1, 5⟩), some (.date ⟨2024, 1, 7⟩)⟩
      ⟨2024, 1, 5⟩ ⟨2024, 1, 7⟩ rfl rfl (by decide) (by decide) (by decide)
  · exact c4_time_invariant_conditional.2
      ⟨"N", "D", some "Utrecht", none, 0, 100, 0, "https://p", true, none, none⟩
      DanceStyle.balfolk _ rfl (by decide)

theorem naive_le_refl (a : NaiveDate) : a.le a := by
  unfold NaiveDate.le
  omega

theorem naive_le_of_lt {a b : NaiveDate} (h : a.lt b) : a.le b := by
  unfold NaiveDate.lt at h
  unfold NaiveDate.le
  omega

theorem naive_lt_of_lt_of_le {a b c : NaiveDate} (h1 : a.lt b) (h2 : b.le c) : a.lt c := by
  unfold NaiveDate.lt at h1 ⊢
  unfold NaiveDate.le at h2
  omega

instance : IsTotal IndexEvent byStartDate :=
  ⟨fun a b => NaiveDate.le_total a.start_date b.start_date⟩

instance : IsTrans IndexEvent byStartDate :=
  ⟨fun _ _ _ hab hbc => NaiveDate.le_trans hab hbc⟩

theorem filter_date_orderedInsert (d : NaiveDate) (a : IndexEvent) (l : List IndexEvent) :
    (List.orderedInsert byStartDate a l).filter (fun e => e.start_date = d) =
      (a :: l).filter (fun e => e.start_date = d) := by
  induction l with
  | nil => rfl
  | cons b bs ih =>
    by_cases hab : byStartDate a b
    · rw [List.orderedInsert, if_pos hab]
    · rw [List.orderedInsert, if_neg hab]
      by_cases hb : b.start_date = d
      · by_cases ha2 : a.start_date = d
        · exfalso
          apply hab
          unfold byStartDate
          rw [ha2, hb]
          exact naive_le_refl d
        · simp [List.filter_cons, hb, ha2, ih]
      · simp [List.filter_cons, hb, ih]

theorem filter_date_insertionSort (d : NaiveDate) (l : List IndexEvent) :
    (List.insertionSort byStartDate l).filter (fun e => e.start_date = d) =
      l.filter (fun e => e.start_date = d) := by
  induction l with
  | nil => rfl
  | cons x xs ih =>
    rw [List.insertionSort, filter_date_orderedInsert, List.filter_cons, List.filter_cons, ih]

theorem groupLoop_acc : ∀ (evs : List IndexEvent) (m : Month) (ms : List Month),
    groupLoop evs m ms = ms ++ groupLoop evs m [] := by
  intro evs
  induction evs with
  | nil =>
    intro m ms
    simp only [groupLoop]
    by_cases hm : m.events = []
    · simp [hm]
    · simp [hm]
  | cons e rest ih =>
    intro m ms
    simp only [groupLoop]
    by_cases hc : e.start_date.year = m.start.year ∧ e.start_date.month = m.start.month
    · rw [if_pos hc, if_pos hc]
      exact ih _ ms
    · rw [if_neg hc, if_neg hc]
      rw [ih, ih ⟨⟨e.start_date.year, e.start_date.month, 1⟩, [e]⟩
        (if m.events ≠ [] then [] ++ [m] else [])]
      by_cases hm : m.events = []
      · simp [hm]
      · simp [hm]

theorem groupLoop_join : ∀ (evs : List IndexEvent) (m : Month),
    ((groupLoop evs m []).map Month.events).flatten = m.events ++ evs := by
  intro evs
  induction evs with
  | nil =>
    intro m
    simp only [groupLoop]
    by_cases hm : m.events = []
    · simp [hm]
    · simp [hm]
  | cons e rest ih =>
    intro m
    simp only [groupLoop]
    by_cases hc : e.start_date.year = m.start.year ∧ e.start_date.month = m.start.month
    · rw [if_pos hc, ih]
      simp
    · rw [if_neg hc, groupLoop_acc]
      rw [List.map_append, List.flatten_append, ih]
      by_cases hm : m.events = []
      · simp [hm]
      · simp [hm]

theorem groupLoop_nonempty : ∀ (evs : List IndexEvent) (m : Month) (g : Month),
    g ∈ groupLoop evs m [] → g.events ≠ [] := by
  intro evs
  induction evs with
  | nil =>
    intro m g hg
    simp only [groupLoop] at hg
    by_cases hm : m.events = []
    · simp [hm] at hg
    · simp [hm] at hg
      rw [hg]
      exact hm
  | cons e rest ih =>
    intro m g hg
    simp only [groupLoop] at hg
    by_cases hc : e.start_date.year = m.start.year ∧ e.start_date.month = m.start.month
    · rw [if_pos hc] at hg
      exact ih _ g hg
    · rw [if_neg hc, groupLoop_acc] at hg
      rcases List.mem_append.mp hg with hgl | hgr
      · by_cases hm : m.events = []
        · simp [hm] at hgl
        · simp [hm] at hgl
          rw [hgl]
          exact hm
      · exact ih _ g hgr

theorem groupLoop_keys : ∀ (evs : List IndexEvent) (m : Month),
    (∀ e ∈ m.events, e.start_date.year = m.start.year ∧ e.start_date.month = m.start.month) →
    m.start.day = 1 →
    ∀ g ∈ groupLoop evs m [], g.start.day = 1 ∧
      ∀ e ∈ g.events, e.start_date.year = g.start.year ∧ e.start_date.month = g.start.month := by
  intro evs
  induction evs with
  | nil =>
    intro m hinv hday g hg
    simp only [groupLoop] at hg
    by_cases hm : m.events = []
    · simp [hm] at hg
    · simp [hm] at hg
      rw [hg]
      exact ⟨hday, hinv⟩
  | cons e rest ih =>
    intro m hinv hday g hg
    simp only [groupLoop] at hg
    by_cases hc : e.start_date.year = m.start.year ∧ e.start_date.month = m.start.month
    · rw [if_pos hc] at hg
      refine ih ⟨m.start, m.events ++ [e]⟩ ?_ hday g hg
      intro x hx
      rcases List.mem_append.mp hx with hxl | hxr
      · exact hinv x hxl
      · rw [List.mem_singleton] at hxr
        rw [hxr]
        exact hc
    · rw [if_neg hc, groupLoop_acc] at hg
      rcases List.mem_append.mp hg with hgl | hgr
      · by_cases hm : m.events = []
        · simp [hm] at hgl
        · simp [hm] at hgl
          rw [hgl]
          exact ⟨hday, hinv⟩
      · refine ih ⟨⟨e.start_date.year, e.start_date.month, 1⟩, [e]⟩ ?_ rfl g hgr
        intro x hx
        rw [List.mem_singleton] at hx
        rw [hx]
        exact ⟨rfl, rfl⟩

theorem groupLoop_chain : ∀ (evs : List IndexEvent) (m : Month),
    List.Pairwise byStartDate evs →
    (∀ e ∈ evs, 1 ≤ e.start_date.day) →
    (∀ e ∈ evs, m.start.le e.start_date) →
    m.start.day = 1 →
    List.Chain' (fun a b : Month => a.start.lt b.start) (groupLoop evs m []) ∧
    (∀ g ∈ groupLoop evs m [], m.start.le g.start) := by
  intro evs
  induction evs with
  | nil =>
    intro m _ _ _ _
    constructor
    · simp only [groupLoop]
      by_cases hm : m.events = []
      · simp [hm]
      · simp [hm]
    · intro g hg
      simp only [groupLoop] at hg
      by_cases hm : m.events = []
      · simp [hm] at hg
      · simp [hm] at hg
        rw [hg]
        exact naive_le_refl m.start
  | cons e rest ih =>
    intro m hpw hday hge hd1
    have hpwr : List.Pairwise byStartDate rest := (List.pairwise_cons.mp hpw).2
    have hhead : ∀ x ∈ rest, byStartDate e x := (List.pairwise_cons.mp hpw).1
    have hdayr : ∀ x ∈ rest, 1 ≤ x.start_date.day := fun x hx => hday x (List.mem_cons_of_mem e hx)
    by_cases hc : e.start_date.year = m.start.year ∧ e.start_date.month = m.start.month
    · have hger : ∀ x ∈ rest, m.start.le x.start_date :=
        fun x hx => hge x (List.mem_cons_of_mem e hx)
      have := ih ⟨m.start, m.events ++ [e]⟩ hpwr hdayr hger hd1
      constructor
      · simp only [groupLoop]
        rw [if_pos hc]
        exact this.1
      · intro g hg
        simp only [groupLoop] at hg
        rw [if_pos hc] at hg
        exact this.2 g hg
    · -- a new month starts at the first day of the month of e
      have hfdlt : m.start.lt ⟨e.start_date.year, e.start_date.month, 1⟩ :=
        NaiveDate.lt_of_le_of_ne_month (hge e (List.mem_cons_self e rest)) hc hd1
      have hfdle : NaiveDate.le ⟨e.start_date.year, e.start_date.month, 1⟩ e.start_date := by
        unfold NaiveDate.le
        have := hday e (List.mem_cons_self e rest)
        dsimp only
        omega
      have hger : ∀ x ∈ rest,
          NaiveDate.le (⟨e.start_date.year, e.start_date.month, 1⟩ : NaiveDate) x.start_date :=
        fun x hx => NaiveDate.le_trans hfdle (hhead x hx)
      have hrec := ih ⟨⟨e.start_date.year, e.start_date.month, 1⟩, [e]⟩ hpwr hdayr hger rfl
      have hloop : groupLoop (e :: rest) m [] =
          (if m.events ≠ [] then [m] else []) ++
            groupLoop rest ⟨⟨e.start_date.year, e.start_date.month, 1⟩, [e]⟩ [] := by
        simp only [groupLoop]
        rw [if_neg hc, groupLoop_acc]
        by_cases hm : m.events = []
        · simp [hm]
        · simp [hm]
      constructor
      · rw [hloop]
        by_cases hm : m.events = []
        · simp only [hm, ne_eq, not_true_eq_false, if_false, List.nil_append]
          exact hrec.1
        · simp only [hm, ne_eq, not_false_eq_true, if_true]
          rw [List.chain'_append]
          refine ⟨List.chain'_singleton m, hrec.1, ?_⟩
          intro x hx y hy
          simp only [List.getLast?_singleton, Option.mem_some_iff] at hx
          subst hx
          have hymem := List.mem_of_mem_head? hy
          have := hrec.2 y hymem
          exact naive_lt_of_lt_of_le hfdlt this
      · intro g hg
        rw [hloop] at hg
        rcases List.mem_append.mp hg with hgl | hgr
        · by_cases hm : m.events = []
          · simp [hm] at hgl
          · simp [hm] at hgl
            rw [hgl]
            exact naive_le_refl m.start
        · exact NaiveDate.le_trans (naive_le_of_lt hfdlt) (hrec.2 g hgr)

theorem naive_eq_mk (a : NaiveDate) (y : Int) (m d : Nat)
    (h1 : a.year = y) (h2 : a.month = m) (h3 : a.day = d) : a = ⟨y, m, d⟩ := by
  cases a
  simp_all

/-- C1: `sort_and_group_by_month` first sorts the events by ascending
start date with a stable sort (the sorted list is a permutation of the
input, is sorted, and events with equal start dates keep their relative
order), then groups consecutive events of the same calendar month: the
concatenation of the emitted groups is exactly the sorted list, no
emitted group is empty, each group's key is the first day of the month
of each of its events, and the group keys are strictly ascending.  On
events starting 2024-01-02, 2024-01-15, 2024-02-03 it yields exactly
the two groups January 2024 (2 events) and February 2024 (1 event). -/
theorem c1_sort_and_group_by_month (events : List IndexEvent)
    (hvalid : ∀ e ∈ events, e.start_date.Valid) :
    (List.insertionSort byStartDate events).Perm events ∧
    List.Sorted byStartDate (List.insertionSort byStartDate events) ∧
    (∀ d, (List.insertionSort byStartDate events).filter (fun e => e.start_date = d) =
      events.filter (fun e => e.start_date = d)) ∧
    ((sort_and_group_by_month events).map Month.events).flatten =
      List.insertionSort byStartDate events ∧
    (∀ g ∈ sort_and_group_by_month events, g.events ≠ []) ∧
    (∀ g ∈ sort_and_group_by_month events, ∀ e ∈ g.events,
      g.start = ⟨e.start_date.year, e.start_date.month, 1⟩) ∧
    List.Chain' (fun a b : Month => a.start.lt b.start) (sort_and_group_by_month events) ∧
    sort_and_group_by_month [⟨⟨2024, 1, 2⟩, 0⟩, ⟨⟨2024, 1, 15⟩, 1⟩, ⟨⟨2024, 2, 3⟩, 2⟩] =
      [⟨⟨2024, 1, 1⟩, [⟨⟨2024, 1, 2⟩, 0⟩, ⟨⟨2024, 1, 15⟩, 1⟩]⟩,
       ⟨⟨2024, 2, 1⟩, [⟨⟨2024, 2, 3⟩, 2⟩]⟩] := by
  refine ⟨List.perm_insertionSort byStartDate events,
    List.sorted_insertionSort byStartDate events,
    fun d => filter_date_insertionSort d events, ?_, ?_, ?_, ?_, by decide⟩
  · have := groupLoop_join (List.insertionSort byStartDate events) ⟨minDate, []⟩
    simpa using this
  · intro g hg
    exact groupLoop_nonempty _ _ g hg
  · intro g hg e he
    have hkeys := groupLoop_keys (List.insertionSort byStartDate events) ⟨minDate, []⟩
      (by intro x hx; simp at hx) rfl g hg
    obtain ⟨hy, hm⟩ := hkeys.2 e he
    exact naive_eq_mk g.start e.start_date.year e.start_date.month 1 hy.symm hm.symm hkeys.1
  · have hsorted : List.Pairwise byStartDate (List.insertionSort byStartDate events) :=
      List.sorted_insertionSort byStartDate events
    have hday : ∀ e ∈ List.insertionSort byStartDate events, 1 ≤ e.start_date.day := by
      intro e he
      have hmem : e ∈ events := (List.mem_insertionSort byStartDate).mp he
      exact (hvalid e hmem).2.2.1
    have hge : ∀ e ∈ List.insertionSort byStartDate events,
        NaiveDate.le (⟨minDate.year, minDate.month, minDate.day⟩ : NaiveDate) e.start_date := by
      intro e he
      have hmem : e ∈ events := (List.mem_insertionSort byStartDate).mp he
      have := minDate_le_of_valid e.start_date (hvalid e hmem)
      simpa using this
    have := groupLoop_chain (List.insertionSort byStartDate events) ⟨minDate, []⟩
      hsorted hday (by simpa using hge) rfl
    exact this.1

/-- Witness for C1 at the three events of the claim. -/
theorem c1_sort_and_group_by_month_witness :
    ((sort_and_group_by_month [⟨⟨2024, 1, 2⟩, 0⟩, ⟨⟨2024, 1, 15⟩, 1⟩, ⟨⟨2024, 2, 3⟩, 2⟩]).map
      Month.events).flatten =
      List.insertionSort byStartDate
        [⟨⟨2024, 1, 2⟩, 0⟩, ⟨⟨2024, 1, 15⟩, 1⟩, ⟨⟨2024, 2, 3⟩, 2⟩] ∧
    sort_and_group_by_month [⟨⟨2024, 1, 2⟩, 0⟩, ⟨⟨2024, 1, 15⟩, 1⟩, ⟨⟨2024, 2, 3⟩, 2⟩] =
      [⟨⟨2024, 1, 1⟩, [⟨⟨2024, 1, 2⟩, 0⟩, ⟨⟨2024, 1, 15⟩, 1⟩]⟩,
       ⟨⟨2024, 2, 1⟩, [⟨⟨2024, 2, 3⟩, 2⟩]⟩] := by
  have h := c1_sort_and_group_by_month
    [⟨⟨2024, 1, 2⟩, 0⟩, ⟨⟨2024, 1, 15⟩, 1⟩, ⟨⟨2024, 2, 3⟩, 2⟩] (by decide)
  exact ⟨h.2.2.2.1, h.2.2.2.2.2.2.2⟩
